import Mathlib

/-!
Shallow embedding of the codec engine of the nugine-simd repository
(crates hex-simd, base32-simd, base64-simd) together with proofs about
its round-trip, path-equivalence, validation and length properties.

Bytes are modelled as `Nat` values below 256, byte buffers as `List Nat`.
Fallible operations return `Option`; a panic is modelled as `Option.none`
of the corresponding checked entry point.  Functions present in the
source snapshot are translated directly; functions of this repository
that the snapshot does not contain are modelled from the specification
and carry a doc comment starting with `Modelled from the spec:`.
-/

/-- Ascii case selector for hex encoding (simd_abstraction::ascii::AsciiCase). -/
inductive AsciiCase where
  | lower
  | upper
deriving DecidableEq

/-- Lower-case hex nibble table, `LOWER_TABLE = b"0123456789abcdef"` in
hex-simd/src/encode.rs. -/
def LOWER_TABLE : List Nat :=
  [48, 49, 50, 51, 52, 53, 54, 55, 56, 57, 97, 98, 99, 100, 101, 102]

/-- Upper-case hex nibble table, `UPPER_TABLE = b"0123456789ABCDEF"` in
hex-simd/src/encode.rs. -/
def UPPER_TABLE : List Nat :=
  [48, 49, 50, 51, 52, 53, 54, 55, 56, 57, 65, 66, 67, 68, 69, 70]

/-- Precomputed 256-entry byte-pair table, `full_table` in hex-simd/src/encode.rs:
entry `i` holds the pair `(table[i >> 4], table[i & 0xf])`, i.e. the two bytes
of the `u16` written by `u16::from_ne_bytes([hi, lo])` in source byte order. -/
def full_table (table : List Nat) : List (Nat × Nat) :=
  (List.range 256).map fun i => (table.getD (i >>> 4) 0, table.getD (i &&& 15) 0)

/-- `FULL_LOWER_TABLE` in hex-simd/src/encode.rs. -/
def FULL_LOWER_TABLE : List (Nat × Nat) := full_table LOWER_TABLE

/-- `FULL_UPPER_TABLE` in hex-simd/src/encode.rs. -/
def FULL_UPPER_TABLE : List (Nat × Nat) := full_table UPPER_TABLE

/-- Case dispatch for the nibble tables, mirroring the `match case` in
hex-simd/src/encode.rs. -/
def nibTable : AsciiCase → List Nat
  | .lower => LOWER_TABLE
  | .upper => UPPER_TABLE

/-- Case dispatch for the full pair tables, mirroring the `match case` in
`encode_raw_fallback`. -/
def hexFullTable : AsciiCase → List (Nat × Nat)
  | .lower => FULL_LOWER_TABLE
  | .upper => FULL_UPPER_TABLE

/-- Scalar hex encode, `encode_raw_fallback` in hex-simd/src/encode.rs: for each
source byte it reads the precomputed pair and writes its two bytes, advancing
the output cursor by 2 per input byte. -/
def encode_raw_fallback : List Nat → AsciiCase → List Nat
  | [], _ => []
  | x :: rest, c =>
    let y := (hexFullTable c).getD x (0, 0)
    y.1 :: y.2 :: encode_raw_fallback rest c

/-- Modelled from the spec: `encode_u8x16` and the `ENCODE_LOWER_LUT` /
`ENCODE_UPPER_LUT` tables live in the simd-abstraction crate, which is not part
of this source snapshot.  Per spec section 4.3 the vectorized encode performs on
every lane the lookup equivalent to the scalar per-symbol step: each byte is
split into its two nibbles and each nibble is looked up in the 16-entry nibble
table of the selected case. -/
def encode_u8x16 : List Nat → AsciiCase → List Nat
  | [], _ => []
  | x :: rest, c =>
    (nibTable c).getD (x >>> 4) 0 :: (nibTable c).getD (x &&& 15) 0 ::
      encode_u8x16 rest c

/-- Source-chunk width of the vectorized hex encode: `encode_raw_simd` splits
the source with `align_to::<Bytes16>` into 16-byte chunks, each of which yields
32 output bytes (`cur = cur.add(32)`). -/
def HEX_ENC_CHUNK : Nat := 16

/-- Chunk loop and suffix handling of `encode_raw_simd` in
hex-simd/src/encode.rs: every full 16-byte chunk goes through `encode_u8x16`;
the tail shorter than one chunk is delegated to `encode_raw_fallback`. -/
def simdMain (c : AsciiCase) (src : List Nat) : List Nat :=
  if _h : HEX_ENC_CHUNK ≤ src.length then
    encode_u8x16 (src.take HEX_ENC_CHUNK) c ++ simdMain c (src.drop HEX_ENC_CHUNK)
  else
    encode_raw_fallback src c
termination_by src.length
decreasing_by
  simp only [List.length_drop, HEX_ENC_CHUNK] at *
  omega

/-- Vectorized hex encode, `encode_raw_simd` in hex-simd/src/encode.rs.
`p` is the length of the unaligned head produced by `align_to::<Bytes16>`
(any value is covered); head and tail are delegated to the scalar fallback,
full chunks go through the vector kernel. -/
def encode_raw_simd (p : Nat) (src : List Nat) (c : AsciiCase) : List Nat :=
  encode_raw_fallback (src.take p) c ++ simdMain c (src.drop p)

/-- Modelled from the spec: the hex decode table (hex-simd decode.rs is not in
this snapshot).  Spec section 3: the inverse mapping sends every byte to its
value or to an invalid sentinel; the crate accepts both cases on decode (its
tests encode upper case and decode with the single decode entry point). -/
def hexDecodeByte (x : Nat) : Option Nat :=
  if 48 ≤ x ∧ x ≤ 57 then some (x - 48)
  else if 97 ≤ x ∧ x ≤ 102 then some (x - 87)
  else if 65 ≤ x ∧ x ≤ 70 then some (x - 55)
  else none

/-- Modelled from the spec: scalar hex decode (hex-simd decode.rs is not in
this snapshot).  Spec section 4.2: symbols are read in groups of two, each is
looked up in the inverse table, failing the instant a lookup is invalid; an odd
trailing symbol is an invalid-length failure. -/
def hexDecode : List Nat → Option (List Nat)
  | [] => some []
  | h :: l :: rest => do
    let hv ← hexDecodeByte h
    let lv ← hexDecodeByte l
    let r ← hexDecode rest
    some ((hv * 16 + lv) :: r)
  | [_] => none

/-- Modelled from the spec: hex check (hex-simd check.rs is not in this
snapshot).  Spec section 4.2: identical traversal to decode, discarding the
repacked bytes and returning only success or failure. -/
def hexCheck : List Nat → Bool
  | [] => true
  | h :: l :: rest => (hexDecodeByte h).isSome && (hexDecodeByte l).isSome && hexCheck rest
  | [_] => false

/-- Modelled from the spec: hex decoded length (spec section 4.5): two input
symbols per output byte, an odd input length is a length error. -/
def hexDecodedLength (s : List Nat) : Option Nat :=
  if s.length % 2 = 0 then some (s.length / 2) else none

/-! ## Base64 (base64-simd/src/lib.rs) -/

/-- `STANDARD_CHARSET` in base64-simd/src/lib.rs. -/
def STANDARD_CHARSET : List Nat :=
  [65, 66, 67, 68, 69, 70, 71, 72, 73, 74, 75, 76, 77, 78, 79, 80, 81, 82, 83,
   84, 85, 86, 87, 88, 89, 90, 97, 98, 99, 100, 101, 102, 103, 104, 105, 106,
   107, 108, 109, 110, 111, 112, 113, 114, 115, 116, 117, 118, 119, 120, 121,
   122, 48, 49, 50, 51, 52, 53, 54, 55, 56, 57, 43, 47]

/-- `URL_SAFE_CHARSET` in base64-simd/src/lib.rs. -/
def URL_SAFE_CHARSET : List Nat :=
  [65, 66, 67, 68, 69, 70, 71, 72, 73, 74, 75, 76, 77, 78, 79, 80, 81, 82, 83,
   84, 85, 86, 87, 88, 89, 90, 97, 98, 99, 100, 101, 102, 103, 104, 105, 106,
   107, 108, 109, 110, 111, 112, 113, 114, 115, 116, 117, 118, 119, 120, 121,
   122, 48, 49, 50, 51, 52, 53, 54, 55, 56, 57, 45, 95]

/-- Modelled from the spec: the inverse alphabet lookup (spec section 3), the
256-entry decode tables of the crates are not in this snapshot.  A byte maps to
its symbol value when it occurs in the charset and to the invalid sentinel
(here `none`) otherwise. -/
def lk (cs : List Nat) (x : Nat) : Option Nat :=
  cs.findIdx? fun y => y == x

/-- Modelled from the spec: decoding one full 4-symbol base64 group (spec
section 4.2), failing the instant any inverse lookup is invalid, then repacking
the four 6-bit values into three bytes. -/
def dec4 (cs : List Nat) (s0 s1 s2 s3 : Nat) : Option (Nat × Nat × Nat) := do
  let y0 ← lk cs s0
  let y1 ← lk cs s1
  let y2 ← lk cs s2
  let y3 ← lk cs s3
  some (y0 * 4 + y1 / 16, y1 % 16 * 16 + y2 / 4, y2 % 4 * 64 + y3)

/-- Modelled from the spec: scalar base64 decode of the padding-stripped symbol
sequence (spec section 4.2): full 4-symbol groups yield 3 bytes each, a trailing
group of 2 or 3 symbols yields 1 or 2 bytes with the padding-only bits verified
to be zero, a trailing single symbol is an invalid length. -/
def b64decodeN (cs : List Nat) : List Nat → Option (List Nat)
  | s0 :: s1 :: s2 :: s3 :: rest => do
    let v ← dec4 cs s0 s1 s2 s3
    let r ← b64decodeN cs rest
    some (v.1 :: v.2.1 :: v.2.2 :: r)
  | [] => some []
  | [s0, s1] => do
    let y0 ← lk cs s0
    let y1 ← lk cs s1
    if y1 % 16 = 0 then some [y0 * 4 + y1 / 16] else none
  | [s0, s1, s2] => do
    let y0 ← lk cs s0
    let y1 ← lk cs s1
    let y2 ← lk cs s2
    if y2 % 4 = 0 then some [y0 * 4 + y1 / 16, y1 % 16 * 16 + y2 / 4] else none
  | [_] => none

/-- Modelled from the spec: scalar base64 check over the padding-stripped
symbol sequence (spec section 4.2): the identical traversal to `b64decodeN`,
discarding the repacked bytes. -/
def b64checkN (cs : List Nat) : List Nat → Bool
  | s0 :: s1 :: s2 :: s3 :: rest =>
    (lk cs s0).isSome && (lk cs s1).isSome && (lk cs s2).isSome &&
      (lk cs s3).isSome && b64checkN cs rest
  | [] => true
  | [s0, s1] =>
    (lk cs s0).isSome &&
      (match lk cs s1 with
       | some y1 => y1 % 16 == 0
       | none => false)
  | [s0, s1, s2] =>
    (lk cs s0).isSome && (lk cs s1).isSome &&
      (match lk cs s2 with
       | some y2 => y2 % 4 == 0
       | none => false)
  | [_] => false

/-- Modelled from the spec: scalar base64 encode of the input groups (spec
section 4.2): every 3 input bytes become 4 symbols; a trailing byte becomes 2
symbols and two trailing bytes become 3 symbols, without padding. -/
def b64encodeCore (cs : List Nat) : List Nat → List Nat
  | a :: b :: c :: rest =>
    cs.getD (a / 4) 0 :: cs.getD (a % 4 * 16 + b / 16) 0 ::
      cs.getD (b % 16 * 4 + c / 64) 0 :: cs.getD (c % 64) 0 ::
        b64encodeCore cs rest
  | [a] => [cs.getD (a / 4) 0, cs.getD (a % 4 * 16) 0]
  | [a, b] => [cs.getD (a / 4) 0, cs.getD (a % 4 * 16 + b / 16) 0, cs.getD (b % 16 * 4) 0]
  | [] => []

/-- Modelled from the spec: the number of `=` bytes appended to complete the
final 4-symbol output group, as a function of `input length % 3` (spec section
4.2). -/
def b64padCount : Nat → Nat
  | 1 => 2
  | 2 => 1
  | _ => 0

/-- Modelled from the spec: scalar base64 encode (spec section 4.2): emits the
symbol groups and, when padding is enabled and the input length is not a
multiple of 3, appends `=` symbols (byte 61) to complete the final group. -/
def b64encode (cs : List Nat) (padding : Bool) (b : List Nat) : List Nat :=
  b64encodeCore cs b ++ (if padding then List.replicate (b64padCount (b.length % 3)) 61 else [])

/-- Modelled from the spec: `crate::decode::decoded_length` of base64-simd
(decode.rs is not in this snapshot), used by `Base64::decoded_length`,
`Base64::decode` and `Base64::decode_inplace` in lib.rs.  Spec section 4.5: it
scans the input tail for padding (padded variants demand a length that is a
multiple of 4 and at most two trailing `=`), or derives the trailing symbol
count from the length for no-padding variants; it returns both the symbol count
`n` without padding and the precise output byte count `m`. -/
def b64decodedLength (padding : Bool) (s : List Nat) : Option (Nat × Nat) :=
  if padding then
    if s.length = 0 then some (0, 0)
    else if s.length % 4 ≠ 0 then none
    else
      let p : Nat :=
        if s.getD (s.length - 1) 0 = 61 then
          if s.getD (s.length - 2) 0 = 61 then 2 else 1
        else 0
      some (s.length - p, s.length / 4 * 3 - p)
  else
    if s.length % 4 = 1 then none
    else some (s.length, s.length / 4 * 3 + (if s.length % 4 = 0 then 0 else s.length % 4 - 1))

/-- Base64 decode as composed in `Base64::decode` of lib.rs: compute `(n, m)`
with `decoded_length`, then run the codec over the `n` non-padding symbols;
the bytes actually written are the result. -/
def b64decode (cs : List Nat) (padding : Bool) (s : List Nat) : Option (List Nat) := do
  let nm ← b64decodedLength padding s
  b64decodeN cs (s.take nm.1)

/-- Modelled from the spec: the base64 check entry point (spec sections 4.4 and
6, check source of base64-simd is not in this snapshot): validate the length
and padding layout with `decoded_length`, then run the validation traversal
over the non-padding symbols. -/
def b64check (cs : List Nat) (padding : Bool) (s : List Nat) : Bool :=
  match b64decodedLength padding s with
  | none => false
  | some nm => b64checkN cs (s.take nm.1)

/-- Largest usize value, for the 64-bit targets the crate is built for. -/
def USIZE_MAX : Nat := 2 ^ 64 - 1

/-- Modelled from the spec: `crate::encode::encoded_length_unchecked` of
base64-simd (encode.rs is not in this snapshot), used by `Base64::encode` and
`Base64::encoded_length` in lib.rs.  Spec section 4.5: with padding the length
is `ceil(n / 3) * 4`; without padding it is the exact symbol count derived from
`n % 3` (a trailing byte adds 2 symbols, two trailing bytes add 3). -/
def encoded_length_unchecked (n : Nat) (padding : Bool) : Nat :=
  if n % 3 = 0 then n / 3 * 4
  else if padding then (n / 3 + 1) * 4
  else n / 3 * 4 + n % 3 + 1

/-- `Base64::encoded_length` in lib.rs: `assert!(n <= usize::MAX / 2)` then the
unchecked computation; the failed assertion (a panic) is modelled as `none`. -/
def encoded_length (padding : Bool) (n : Nat) : Option Nat :=
  if n ≤ USIZE_MAX / 2 then some (encoded_length_unchecked n padding) else none

/-- `Base64::encode` in lib.rs: computes `m = encoded_length_unchecked`,
panics (modelled as `none`) unless the output buffer holds at least `m` bytes,
then encodes and returns the `m` written bytes. -/
def b64encodeChecked (cs : List Nat) (padding : Bool) (src : List Nat) (dstLen : Nat) :
    Option (List Nat) :=
  let m := encoded_length_unchecked src.length padding
  if m ≤ dstLen then some (b64encode cs padding src) else none

/-- `Base64Kind` in base64-simd/src/lib.rs. -/
inductive Base64Kind where
  | Standard
  | UrlSafe
deriving DecidableEq

/-- The `Base64` variant value of base64-simd/src/lib.rs: a charset kind plus a
padding flag. -/
structure Base64 where
  kind : Base64Kind
  padding : Bool
deriving DecidableEq

/-- `Base64::STANDARD`. -/
def Base64.STANDARD : Base64 := ⟨.Standard, true⟩

/-- `Base64::STANDARD_NO_PAD`. -/
def Base64.STANDARD_NO_PAD : Base64 := ⟨.Standard, false⟩

/-- `Base64::URL_SAFE`. -/
def Base64.URL_SAFE : Base64 := ⟨.UrlSafe, true⟩

/-- `Base64::URL_SAFE_NO_PAD`. -/
def Base64.URL_SAFE_NO_PAD : Base64 := ⟨.UrlSafe, false⟩

/-- `Base64::charset` in lib.rs. -/
def Base64.charset : Base64 → List Nat
  | ⟨.Standard, _⟩ => STANDARD_CHARSET
  | ⟨.UrlSafe, _⟩ => URL_SAFE_CHARSET

/-- `Base64::decode_inplace` in lib.rs: `decoded_length` then the in-place
decode over the same buffer; the returned bytes are the decoded prefix. -/
def Base64.decode_inplace (v : Base64) (data : List Nat) : Option (List Nat) :=
  b64decode v.charset v.padding data

/-- `Base64::encode_to_boxed_str` in lib.rs: empty input short-circuits to the
empty string, otherwise an `m`-byte buffer is allocated and filled by the
encode kernel. -/
def Base64.encode_to_boxed_str (v : Base64) (data : List Nat) : List Nat :=
  if data.isEmpty then [] else b64encode v.charset v.padding data

/-- `Base64::decode_to_boxed_bytes` in lib.rs: empty input short-circuits to
`Ok` with the empty byte sequence, otherwise `decoded_length` sizes a buffer
which the decode kernel fills. -/
def Base64.decode_to_boxed_bytes (v : Base64) (data : List Nat) : Option (List Nat) :=
  if data.isEmpty then some [] else b64decode v.charset v.padding data

/-- Ascii whitespace bytes stripped by the forgiving-base64 normalization
(TAB, LF, FF, CR, SPACE). -/
def isAsciiWhitespace (x : Nat) : Bool :=
  x == 9 || x == 10 || x == 12 || x == 13 || x == 32

/-- Modelled from the spec: `crate::forgiving::normalize` of base64-simd
(forgiving.rs is not in this snapshot), per spec sections 6 and 8 and the
WHATWG forgiving-base64 rules referenced by `Base64::forgiving_decode_inplace`:
strip all ascii whitespace; then, if the remaining length is a multiple of 4,
drop one or two trailing `=` bytes. -/
def forgiving_normalize (data : List Nat) : List Nat :=
  let d := data.filter fun x => !isAsciiWhitespace x
  if d.length % 4 = 0 then
    if d.getD (d.length - 1) 0 = 61 then
      if d.getD (d.length - 2) 0 = 61 then d.take (d.length - 2)
      else d.take (d.length - 1)
    else d
  else d

/-- `Base64::forgiving_decode_inplace` in lib.rs: normalize, then decode in
place with the no-padding standard variant. -/
def forgiving_decode_inplace (data : List Nat) : Option (List Nat) :=
  Base64.STANDARD_NO_PAD.decode_inplace (forgiving_normalize data)

/-! ## Base32 (base32-simd/src/check.rs and spec-modelled codec parts) -/

/-- `Kind` of vsimd::base32, as matched in base32-simd/src/check.rs. -/
inductive Kind where
  | Base32
  | Base32Hex
deriving DecidableEq

/-- Modelled from the spec: the rfc 4648 base32 alphabet of the `Kind::Base32`
family (the encode charset behind `BASE32_TABLE`; base32-simd decode.rs is not
in this snapshot). -/
def BASE32_CHARSET : List Nat :=
  [65, 66, 67, 68, 69, 70, 71, 72, 73, 74, 75, 76, 77, 78, 79, 80, 81, 82, 83,
   84, 85, 86, 87, 88, 89, 90, 50, 51, 52, 53, 54, 55]

/-- Modelled from the spec: the rfc 4648 base32hex alphabet of the
`Kind::Base32Hex` family (the encode charset behind `BASE32HEX_TABLE`). -/
def BASE32HEX_CHARSET : List Nat :=
  [48, 49, 50, 51, 52, 53, 54, 55, 56, 57, 65, 66, 67, 68, 69, 70, 71, 72, 73,
   74, 75, 76, 77, 78, 79, 80, 81, 82, 83, 84, 85, 86]

/-- Charset dispatch mirroring the `match kind` table selection in
base32-simd/src/check.rs. -/
def kindCharset : Kind → List Nat
  | .Base32 => BASE32_CHARSET
  | .Base32Hex => BASE32HEX_CHARSET

/-- Modelled from the spec: decoding one full 8-symbol base32 group — the
`decode_bits::<8>` step of base32-simd (decode.rs is not in this snapshot) —
failing when any inverse lookup hits the invalid sentinel, then repacking the
eight 5-bit values into five bytes. -/
def dec8 (cs : List Nat) (s0 s1 s2 s3 s4 s5 s6 s7 : Nat) :
    Option (Nat × Nat × Nat × Nat × Nat) := do
  let y0 ← lk cs s0
  let y1 ← lk cs s1
  let y2 ← lk cs s2
  let y3 ← lk cs s3
  let y4 ← lk cs s4
  let y5 ← lk cs s5
  let y6 ← lk cs s6
  let y7 ← lk cs s7
  some (y0 * 8 + y1 / 4,
        y1 % 4 * 64 + y2 * 2 + y3 / 16,
        y3 % 16 * 16 + y4 / 2,
        y4 % 2 * 128 + y5 * 4 + y6 / 8,
        y6 % 8 * 32 + y7)

/-- Modelled from the spec: `decode_extra::<WRITE>` of base32-simd with
`WRITE = true` (decode.rs is not in this snapshot): decodes the final partial
group of `len % 8` symbols.  Spec section 4.2: legal trailing symbol counts are
0, 2, 4, 5 and 7 (yielding 1 to 4 bytes), every symbol must be valid, and the
padding-only bits must be zero; counts 1, 3 and 6 are invalid lengths. -/
def b32decodeExtra (cs : List Nat) : List Nat → Option (List Nat)
  | [] => some []
  | [_] => none
  | [s0, s1] => do
    let y0 ← lk cs s0
    let y1 ← lk cs s1
    if y1 % 4 = 0 then some [y0 * 8 + y1 / 4] else none
  | [_, _, _] => none
  | [s0, s1, s2, s3] => do
    let y0 ← lk cs s0
    let y1 ← lk cs s1
    let y2 ← lk cs s2
    let y3 ← lk cs s3
    if y3 % 16 = 0 then
      some [y0 * 8 + y1 / 4, y1 % 4 * 64 + y2 * 2 + y3 / 16]
    else none
  | [s0, s1, s2, s3, s4] => do
    let y0 ← lk cs s0
    let y1 ← lk cs s1
    let y2 ← lk cs s2
    let y3 ← lk cs s3
    let y4 ← lk cs s4
    if y4 % 2 = 0 then
      some [y0 * 8 + y1 / 4, y1 % 4 * 64 + y2 * 2 + y3 / 16, y3 % 16 * 16 + y4 / 2]
    else none
  | [_, _, _, _, _, _] => none
  | [s0, s1, s2, s3, s4, s5, s6] => do
    let y0 ← lk cs s0
    let y1 ← lk cs s1
    let y2 ← lk cs s2
    let y3 ← lk cs s3
    let y4 ← lk cs s4
    let y5 ← lk cs s5
    let y6 ← lk cs s6
    if y6 % 8 = 0 then
      some [y0 * 8 + y1 / 4, y1 % 4 * 64 + y2 * 2 + y3 / 16, y3 % 16 * 16 + y4 / 2,
            y4 % 2 * 128 + y5 * 4 + y6 / 8]
    else none
  | _ => none

/-- Modelled from the spec: `decode_extra::<WRITE>` with `WRITE = false`, the
validation-only form used by `check_fallback` in base32-simd/src/check.rs: the
identical traversal to `b32decodeExtra` with a null output pointer, returning
only success or failure. -/
def decode_extra_chk (cs : List Nat) : List Nat → Bool
  | [] => true
  | [_] => false
  | [s0, s1] =>
    (lk cs s0).isSome &&
      (match lk cs s1 with
       | some y1 => y1 % 4 == 0
       | none => false)
  | [_, _, _] => false
  | [s0, s1, s2, s3] =>
    (lk cs s0).isSome && (lk cs s1).isSome && (lk cs s2).isSome &&
      (match lk cs s3 with
       | some y3 => y3 % 16 == 0
       | none => false)
  | [s0, s1, s2, s3, s4] =>
    (lk cs s0).isSome && (lk cs s1).isSome && (lk cs s2).isSome && (lk cs s3).isSome &&
      (match lk cs s4 with
       | some y4 => y4 % 2 == 0
       | none => false)
  | [_, _, _, _, _, _] => false
  | [s0, s1, s2, s3, s4, s5, s6] =>
    (lk cs s0).isSome && (lk cs s1).isSome && (lk cs s2).isSome && (lk cs s3).isSome &&
      (lk cs s4).isSome && (lk cs s5).isSome &&
      (match lk cs s6 with
       | some y6 => y6 % 8 == 0
       | none => false)
  | _ => false

/-- Modelled from the spec: scalar base32 decode over the padding-stripped
symbol sequence: the loop of full 8-symbol groups (each yielding 5 bytes)
followed by `decode_extra` on the remainder, mirroring the loop structure shown
by `check_fallback` in base32-simd/src/check.rs. -/
def b32decodeN (cs : List Nat) : List Nat → Option (List Nat)
  | s0 :: s1 :: s2 :: s3 :: s4 :: s5 :: s6 :: s7 :: rest => do
    let v ← dec8 cs s0 s1 s2 s3 s4 s5 s6 s7
    let r ← b32decodeN cs rest
    some (v.1 :: v.2.1 :: v.2.2.1 :: v.2.2.2.1 :: v.2.2.2.2 :: r)
  | s => b32decodeExtra cs s

/-- `check_fallback` in base32-simd/src/check.rs: walks full 8-symbol groups,
failing as soon as a group contains an invalid symbol (`flag == 0xff` from
`decode_bits::<8>`), then validates the `len % 8` remainder with
`decode_extra::<false>`. -/
def check_fallback (kind : Kind) : List Nat → Bool
  | s0 :: s1 :: s2 :: s3 :: s4 :: s5 :: s6 :: s7 :: rest =>
    (lk (kindCharset kind) s0).isSome && (lk (kindCharset kind) s1).isSome &&
      (lk (kindCharset kind) s2).isSome && (lk (kindCharset kind) s3).isSome &&
      (lk (kindCharset kind) s4).isSome && (lk (kindCharset kind) s5).isSome &&
      (lk (kindCharset kind) s6).isSome && (lk (kindCharset kind) s7).isSome &&
      check_fallback kind rest
  | s => decode_extra_chk (kindCharset kind) s

/-- Modelled from the spec: `check_ascii32` of vsimd::base32 with the
`*_ALSW_CHECK_X2` legality tables (not in this snapshot): a pure membership
test folding the legality of all 32 lanes into one flag (spec section 4.4). -/
def check_ascii32 (kind : Kind) (chunk : List Nat) : Bool :=
  chunk.all fun x => (lk (kindCharset kind) x).isSome

/-- Source-chunk width of the vectorized base32 check: `check_simd` in
base32-simd/src/check.rs consumes `len / 32 * 32` bytes in 32-byte loads. -/
def B32_CHECK_CHUNK : Nat := 32

/-- `check_simd` in base32-simd/src/check.rs: validates full 32-byte chunks
with `check_ascii32`, failing on the first illegal chunk, and delegates the
`len % 32` remainder to `check_fallback`. -/
def check_simd (kind : Kind) (src : List Nat) : Bool :=
  if _h : B32_CHECK_CHUNK ≤ src.length then
    check_ascii32 kind (src.take B32_CHECK_CHUNK) && check_simd kind (src.drop B32_CHECK_CHUNK)
  else
    check_fallback kind src
termination_by src.length
decreasing_by
  simp only [List.length_drop, B32_CHECK_CHUNK] at *
  omega

/-- Modelled from the spec: scalar base32 encode of the input groups (spec
section 4.2): every 5 input bytes become 8 symbols; trailing 1, 2, 3 or 4 bytes
become 2, 4, 5 or 7 symbols, without padding. -/
def b32encodeCore (cs : List Nat) : List Nat → List Nat
  | a :: b :: c :: d :: e :: rest =>
    cs.getD (a / 8) 0 :: cs.getD (a % 8 * 4 + b / 64) 0 :: cs.getD (b / 2 % 32) 0 ::
      cs.getD (b % 2 * 16 + c / 16) 0 :: cs.getD (c % 16 * 2 + d / 128) 0 ::
      cs.getD (d / 4 % 32) 0 :: cs.getD (d % 4 * 8 + e / 32) 0 :: cs.getD (e % 32) 0 ::
        b32encodeCore cs rest
  | [a] => [cs.getD (a / 8) 0, cs.getD (a % 8 * 4) 0]
  | [a, b] =>
    [cs.getD (a / 8) 0, cs.getD (a % 8 * 4 + b / 64) 0, cs.getD (b / 2 % 32) 0,
     cs.getD (b % 2 * 16) 0]
  | [a, b, c] =>
    [cs.getD (a / 8) 0, cs.getD (a % 8 * 4 + b / 64) 0, cs.getD (b / 2 % 32) 0,
     cs.getD (b % 2 * 16 + c / 16) 0, cs.getD (c % 16 * 2) 0]
  | [a, b, c, d] =>
    [cs.getD (a / 8) 0, cs.getD (a % 8 * 4 + b / 64) 0, cs.getD (b / 2 % 32) 0,
     cs.getD (b % 2 * 16 + c / 16) 0, cs.getD (c % 16 * 2 + d / 128) 0,
     cs.getD (d / 4 % 32) 0, cs.getD (d % 4 * 8) 0]
  | [] => []

/-- Modelled from the spec: the number of `=` bytes appended to complete the
final 8-symbol base32 output group, as a function of `input length % 5`. -/
def b32padCount : Nat → Nat
  | 1 => 6
  | 2 => 4
  | 3 => 3
  | 4 => 1
  | _ => 0

/-- Modelled from the spec: scalar base32 encode (spec section 4.2): emits the
symbol groups and, when padding is enabled and the input length is not a
multiple of 5, appends `=` symbols (byte 61) to complete the final group. -/
def b32encode (cs : List Nat) (padding : Bool) (b : List Nat) : List Nat :=
  b32encodeCore cs b ++ (if padding then List.replicate (b32padCount (b.length % 5)) 61 else [])

/-- Length of the trailing run of `=` bytes (byte 61), as scanned backwards by
the base32 decoded-length computation. -/
def trailingPadRun (s : List Nat) : Nat :=
  (s.reverse.takeWhile fun x => x == 61).length

/-- Modelled from the spec: the base32 decoded-length computation (spec section
4.5): padded variants demand a length that is a multiple of 8 and scan the tail
for at most 6 padding symbols; the symbol count without padding must leave a
legal remainder (0, 2, 4, 5 or 7) modulo 8.  Returns the symbol count `n` and
the output byte count `m`. -/
def b32decodedLength (padding : Bool) (s : List Nat) : Option (Nat × Nat) :=
  if padding then
    if s.length = 0 then some (0, 0)
    else if s.length % 8 ≠ 0 then none
    else
      let p := min (trailingPadRun s) 6
      let n := s.length - p
      if n % 8 = 0 then some (n, n / 8 * 5)
      else if n % 8 = 2 then some (n, n / 8 * 5 + 1)
      else if n % 8 = 4 then some (n, n / 8 * 5 + 2)
      else if n % 8 = 5 then some (n, n / 8 * 5 + 3)
      else if n % 8 = 7 then some (n, n / 8 * 5 + 4)
      else none
  else
    if s.length % 8 = 0 then some (s.length, s.length / 8 * 5)
    else if s.length % 8 = 2 then some (s.length, s.length / 8 * 5 + 1)
    else if s.length % 8 = 4 then some (s.length, s.length / 8 * 5 + 2)
    else if s.length % 8 = 5 then some (s.length, s.length / 8 * 5 + 3)
    else if s.length % 8 = 7 then some (s.length, s.length / 8 * 5 + 4)
    else none

/-- Modelled from the spec: the base32 decode entry point: decoded-length
validation and padding stripping, then the scalar decode over the `n`
non-padding symbols. -/
def b32decode (kind : Kind) (padding : Bool) (s : List Nat) : Option (List Nat) := do
  let nm ← b32decodedLength padding s
  b32decodeN (kindCharset kind) (s.take nm.1)

/-- Modelled from the spec: the base32 check entry point (spec sections 4.4 and
6): decoded-length validation and padding stripping, then the `check_fallback`
traversal of base32-simd/src/check.rs over the non-padding symbols. -/
def b32check (kind : Kind) (padding : Bool) (s : List Nat) : Bool :=
  match b32decodedLength padding s with
  | none => false
  | some nm => check_fallback kind (s.take nm.1)

/-! ## Variant dispatch -/

/-- A codec variant of the engine (spec section 3): family, case for hex, and
padding flag for base32/base64. -/
inductive Variant where
  | hexLower
  | hexUpper
  | base32 (padding : Bool)
  | base32hex (padding : Bool)
  | base64 (padding : Bool)
  | base64url (padding : Bool)
deriving DecidableEq

/-- Encode entry point of each variant. -/
def variantEncode : Variant → List Nat → List Nat
  | .hexLower, b => encode_raw_fallback b .lower
  | .hexUpper, b => encode_raw_fallback b .upper
  | .base32 p, b => b32encode BASE32_CHARSET p b
  | .base32hex p, b => b32encode BASE32HEX_CHARSET p b
  | .base64 p, b => b64encode STANDARD_CHARSET p b
  | .base64url p, b => b64encode URL_SAFE_CHARSET p b

/-- Decode entry point of each variant (hex decode is case insensitive). -/
def variantDecode : Variant → List Nat → Option (List Nat)
  | .hexLower, s => hexDecode s
  | .hexUpper, s => hexDecode s
  | .base32 p, s => b32decode .Base32 p s
  | .base32hex p, s => b32decode .Base32Hex p s
  | .base64 p, s => b64decode STANDARD_CHARSET p s
  | .base64url p, s => b64decode URL_SAFE_CHARSET p s

/-- Check entry point of each variant. -/
def variantCheck : Variant → List Nat → Bool
  | .hexLower, s => hexCheck s
  | .hexUpper, s => hexCheck s
  | .base32 p, s => b32check .Base32 p s
  | .base32hex p, s => b32check .Base32Hex p s
  | .base64 p, s => b64check STANDARD_CHARSET p s
  | .base64url p, s => b64check URL_SAFE_CHARSET p s

/-- Precise decoded length (the output byte count) of each variant. -/
def variantDecodedLength : Variant → List Nat → Option Nat
  | .hexLower, s => hexDecodedLength s
  | .hexUpper, s => hexDecodedLength s
  | .base32 p, s => (b32decodedLength p s).map fun nm => nm.2
  | .base32hex p, s => (b32decodedLength p s).map fun nm => nm.2
  | .base64 p, s => (b64decodedLength p s).map fun nm => nm.2
  | .base64url p, s => (b64decodedLength p s).map fun nm => nm.2

/-! ## Basic facts about the tables and helpers -/

set_option maxRecDepth 10000

theorem hexFullTable_eq (c : AsciiCase) : hexFullTable c = full_table (nibTable c) := by
  cases c <;> rfl

theorem bits_of_byte : ∀ x, x < 256 → x &&& 15 = x % 16 ∧ x >>> 4 = x / 16 := by decide

theorem full_table_getD (t : List Nat) (x : Nat) (h : x < 256) :
    (full_table t).getD x (0, 0) = (t.getD (x >>> 4) 0, t.getD (x &&& 15) 0) := by
  have hlen : x < (full_table t).length := by
    simp only [full_table, List.length_map, List.length_range]
    omega
  rw [List.getD_eq_getElem _ _ hlen]
  simp [full_table]

theorem full_table_getD_divmod (t : List Nat) (x : Nat) (h : x < 256) :
    (full_table t).getD x (0, 0) = (t.getD (x / 16) 0, t.getD (x % 16) 0) := by
  rw [full_table_getD t x h, (bits_of_byte x h).1, (bits_of_byte x h).2]

theorem erf_append (c : AsciiCase) (a b : List Nat) :
    encode_raw_fallback (a ++ b) c = encode_raw_fallback a c ++ encode_raw_fallback b c := by
  induction a with
  | nil => rfl
  | cons x rest ih => simp [encode_raw_fallback, ih]

theorem erf_eq_u8x16 (c : AsciiCase) (src : List Nat) (h : ∀ x ∈ src, x < 256) :
    encode_u8x16 src c = encode_raw_fallback src c := by
  induction src with
  | nil => rfl
  | cons x rest ih =>
    have hx : x < 256 := h x (List.mem_cons_self x rest)
    simp only [encode_raw_fallback, encode_u8x16, hexFullTable_eq, full_table_getD (nibTable c) x hx]
    exact congrArg _ (congrArg _ (ih fun y hy => h y (List.mem_cons_of_mem x hy)))

theorem simdMain_eq_fallback (c : AsciiCase) :
    ∀ n (src : List Nat), src.length ≤ n → (∀ x ∈ src, x < 256) →
      simdMain c src = encode_raw_fallback src c := by
  intro n
  induction n with
  | zero =>
    intro src hlen _
    have : src = [] := List.eq_nil_of_length_eq_zero (Nat.le_zero.mp hlen)
    subst this
    rw [simdMain]
    rfl
  | succ n ih =>
    intro src hlen hmem
    rw [simdMain]
    by_cases h16 : HEX_ENC_CHUNK ≤ src.length
    · rw [dif_pos h16]
      simp only [HEX_ENC_CHUNK] at h16
      have htake : encode_u8x16 (src.take HEX_ENC_CHUNK) c =
          encode_raw_fallback (src.take HEX_ENC_CHUNK) c :=
        erf_eq_u8x16 c _ fun y hy => hmem y (List.take_subset _ _ hy)
      have hdrop : simdMain c (src.drop HEX_ENC_CHUNK) =
          encode_raw_fallback (src.drop HEX_ENC_CHUNK) c := by
        apply ih
        · simp only [List.length_drop, HEX_ENC_CHUNK]
          omega
        · exact fun y hy => hmem y (List.drop_subset _ _ hy)
      rw [htake, hdrop, ← erf_append, List.take_append_drop]
    · rw [dif_neg h16]

theorem encode_raw_simd_eq_fallback (c : AsciiCase) (p : Nat) (src : List Nat)
    (h : ∀ x ∈ src, x < 256) :
    encode_raw_simd p src c = encode_raw_fallback src c := by
  unfold encode_raw_simd
  rw [simdMain_eq_fallback c (src.drop p).length _ le_rfl
       (fun y hy => h y (List.drop_subset _ _ hy)),
     ← erf_append, List.take_append_drop]

theorem hex_nib_decode (c : AsciiCase) :
    ∀ i, i < 16 → hexDecodeByte ((nibTable c).getD i 0) = some i := by
  cases c <;> decide

theorem hexDecode_encode (c : AsciiCase) (b : List Nat) (h : ∀ x ∈ b, x < 256) :
    hexDecode (encode_raw_fallback b c) = some b := by
  induction b with
  | nil => rfl
  | cons x rest ih =>
    have hx : x < 256 := h x (List.mem_cons_self x rest)
    simp only [encode_raw_fallback, hexFullTable_eq, full_table_getD_divmod (nibTable c) x hx,
      hexDecode]
    rw [hex_nib_decode c (x / 16) (by omega), hex_nib_decode c (x % 16) (by omega)]
    simp only [Option.bind_eq_bind, Option.some_bind,
      ih fun y hy => h y (List.mem_cons_of_mem x hy)]
    have : x / 16 * 16 + x % 16 = x := by omega
    rw [this]

theorem hexCheck_iff_decode : ∀ (s : List Nat), hexCheck s = true ↔ (hexDecode s).isSome = true := by
  have H : ∀ n (s : List Nat), s.length ≤ n → (hexCheck s = true ↔ (hexDecode s).isSome = true) := by
    intro n
    induction n with
    | zero =>
      intro s hlen
      have : s = [] := List.eq_nil_of_length_eq_zero (Nat.le_zero.mp hlen)
      subst this
      simp [hexCheck, hexDecode]
    | succ n ih =>
      intro s hlen
      match s with
      | [] => simp [hexCheck, hexDecode]
      | [x] => simp [hexCheck, hexDecode]
      | x :: l :: rest =>
        have hrest := ih rest (by simp at hlen; omega)
        cases hx : hexDecodeByte x <;> cases hl : hexDecodeByte l <;>
          cases hr : hexDecode rest <;>
          simp_all [hexCheck, hexDecode, Option.isSome]
  intro s
  exact H s.length s le_rfl

/-! ## Base64 lemmas -/

theorem getD_mem_of_lt {l : List Nat} {i : Nat} (h : i < l.length) (d : Nat) :
    l.getD i d ∈ l := by
  rw [List.getD_eq_getElem _ _ h]
  exact List.getElem_mem h

theorem std_inv : ∀ i, i < 64 → lk STANDARD_CHARSET (STANDARD_CHARSET.getD i 0) = some i := by
  decide

theorem url_inv : ∀ i, i < 64 → lk URL_SAFE_CHARSET (URL_SAFE_CHARSET.getD i 0) = some i := by
  decide

theorem std_len : STANDARD_CHARSET.length = 64 := by decide

theorem url_len : URL_SAFE_CHARSET.length = 64 := by decide

theorem std_ne61 : ∀ x ∈ STANDARD_CHARSET, x ≠ 61 := by decide

theorem url_ne61 : ∀ x ∈ URL_SAFE_CHARSET, x ≠ 61 := by decide

theorem dec4_enc (cs : List Nat) (hinv : ∀ i, i < 64 → lk cs (cs.getD i 0) = some i)
    (a b c : Nat) (ha : a < 256) (hb : b < 256) (hc : c < 256) :
    dec4 cs (cs.getD (a / 4) 0) (cs.getD (a % 4 * 16 + b / 16) 0)
      (cs.getD (b % 16 * 4 + c / 64) 0) (cs.getD (c % 64) 0) = some (a, b, c) := by
  unfold dec4
  rw [hinv _ (by omega), hinv _ (by omega), hinv _ (by omega), hinv _ (by omega)]
  simp only [Option.bind_eq_bind, Option.some_bind, Option.some.injEq, Prod.mk.injEq]
  refine ⟨by omega, by omega, by omega⟩

theorem b64decodeN_encodeCore (cs : List Nat)
    (hinv : ∀ i, i < 64 → lk cs (cs.getD i 0) = some i) :
    ∀ n (b : List Nat), b.length ≤ n → (∀ x ∈ b, x < 256) →
      b64decodeN cs (b64encodeCore cs b) = some b := by
  intro n
  induction n with
  | zero =>
    intro b hlen _
    have : b = [] := List.eq_nil_of_length_eq_zero (Nat.le_zero.mp hlen)
    subst this
    rfl
  | succ n ih =>
    intro b hlen hmem
    match b with
    | [] => rfl
    | [a] =>
      have ha : a < 256 := hmem a (by simp)
      simp only [b64encodeCore, b64decodeN]
      rw [hinv _ (by omega), hinv _ (by omega)]
      simp only [Option.bind_eq_bind, Option.some_bind]
      rw [if_pos (by omega)]
      have : a / 4 * 4 + a % 4 * 16 / 16 = a := by omega
      rw [this]
    | [a, b2] =>
      have ha : a < 256 := hmem a (by simp)
      have hb : b2 < 256 := hmem b2 (by simp)
      simp only [b64encodeCore, b64decodeN]
      rw [hinv _ (by omega), hinv _ (by omega), hinv _ (by omega)]
      simp only [Option.bind_eq_bind, Option.some_bind]
      rw [if_pos (by omega)]
      have h1 : a / 4 * 4 + (a % 4 * 16 + b2 / 16) / 16 = a := by omega
      have h2 : (a % 4 * 16 + b2 / 16) % 16 * 16 + b2 % 16 * 4 / 4 = b2 := by omega
      rw [h1, h2]
    | a :: b2 :: c :: rest =>
      have ha : a < 256 := hmem a (by simp)
      have hb : b2 < 256 := hmem b2 (by simp)
      have hc : c < 256 := hmem c (by simp)
      simp only [b64encodeCore, b64decodeN]
      rw [dec4_enc cs hinv a b2 c ha hb hc]
      have hrest : b64decodeN cs (b64encodeCore cs rest) = some rest := by
        apply ih rest (by simp at hlen; omega)
        exact fun y hy => hmem y (by simp [hy])
      rw [Option.bind_eq_bind, Option.some_bind, hrest]
      rfl

theorem b64encodeCore_length (cs : List Nat) :
    ∀ n (b : List Nat), b.length ≤ n →
      (b64encodeCore cs b).length =
        b.length / 3 * 4 + (if b.length % 3 = 0 then 0 else b.length % 3 + 1) := by
  intro n
  induction n with
  | zero =>
    intro b hlen
    have : b = [] := List.eq_nil_of_length_eq_zero (Nat.le_zero.mp hlen)
    subst this
    rfl
  | succ n ih =>
    intro b hlen
    match b with
    | [] => rfl
    | [a] => simp [b64encodeCore]
    | [a, b2] => simp [b64encodeCore]
    | a :: b2 :: c :: rest =>
      simp only [b64encodeCore, List.length_cons]
      rw [ih rest (by simp at hlen; omega)]
      have h3 : (rest.length + 1 + 1 + 1) % 3 = rest.length % 3 := by omega
      have h4 : (rest.length + 1 + 1 + 1) / 3 = rest.length / 3 + 1 := by omega
      rw [h3, h4]
      omega

theorem b64encodeCore_mem (cs : List Nat) (hlen : cs.length = 64) :
    ∀ n (b : List Nat), b.length ≤ n → (∀ x ∈ b, x < 256) →
      ∀ y ∈ b64encodeCore cs b, y ∈ cs := by
  intro n
  induction n with
  | zero =>
    intro b hblen _
    have : b = [] := List.eq_nil_of_length_eq_zero (Nat.le_zero.mp hblen)
    subst this
    intro y hy
    simp [b64encodeCore] at hy
  | succ n ih =>
    intro b hblen hmem
    match b with
    | [] => intro y hy; simp [b64encodeCore] at hy
    | [a] =>
      have ha : a < 256 := hmem a (by simp)
      intro y hy
      simp only [b64encodeCore, List.mem_cons, List.not_mem_nil, or_false] at hy
      rcases hy with h | h <;> (subst h; exact getD_mem_of_lt (by omega) 0)
    | [a, b2] =>
      have ha : a < 256 := hmem a (by simp)
      have hb : b2 < 256 := hmem b2 (by simp)
      intro y hy
      simp only [b64encodeCore, List.mem_cons, List.not_mem_nil, or_false] at hy
      rcases hy with h | h | h <;> (subst h; exact getD_mem_of_lt (by omega) 0)
    | a :: b2 :: c :: rest =>
      have ha : a < 256 := hmem a (by simp)
      have hb : b2 < 256 := hmem b2 (by simp)
      have hc : c < 256 := hmem c (by simp)
      intro y hy
      simp only [b64encodeCore, List.mem_cons] at hy
      rcases hy with h | h | h | h | h
      · subst h; exact getD_mem_of_lt (by omega) 0
      · subst h; exact getD_mem_of_lt (by omega) 0
      · subst h; exact getD_mem_of_lt (by omega) 0
      · subst h; exact getD_mem_of_lt (by omega) 0
      · exact ih rest (by simp at hblen; omega) (fun y hy => hmem y (by simp [hy])) y h

theorem b64decodeN_length (cs : List Nat) :
    ∀ n (s r : List Nat), s.length ≤ n → b64decodeN cs s = some r →
      s.length % 4 ≠ 1 ∧
        r.length = s.length / 4 * 3 + (if s.length % 4 = 0 then 0 else s.length % 4 - 1) := by
  intro n
  induction n with
  | zero =>
    intro s r hlen h
    have : s = [] := List.eq_nil_of_length_eq_zero (Nat.le_zero.mp hlen)
    subst this
    simp only [b64decodeN, Option.some.injEq] at h
    subst h
    simp
  | succ n ih =>
    intro s r hlen h
    match s with
    | [] =>
      simp only [b64decodeN, Option.some.injEq] at h
      subst h
      simp
    | [s0] => simp [b64decodeN] at h
    | [s0, s1] =>
      simp only [b64decodeN, Option.bind_eq_bind] at h
      cases h0 : lk cs s0 <;> rw [h0] at h <;> simp only [Option.none_bind, Option.some_bind] at h
      · exact absurd h (by simp)
      cases h1 : lk cs s1 <;> rw [h1] at h <;> simp only [Option.none_bind, Option.some_bind] at h
      · exact absurd h (by simp)
      split at h
      · rw [Option.some.injEq] at h
        subst h
        simp
      · exact absurd h (by simp)
    | [s0, s1, s2] =>
      simp only [b64decodeN, Option.bind_eq_bind] at h
      cases h0 : lk cs s0 <;> rw [h0] at h <;> simp only [Option.none_bind, Option.some_bind] at h
      · exact absurd h (by simp)
      cases h1 : lk cs s1 <;> rw [h1] at h <;> simp only [Option.none_bind, Option.some_bind] at h
      · exact absurd h (by simp)
      cases h2 : lk cs s2 <;> rw [h2] at h <;> simp only [Option.none_bind, Option.some_bind] at h
      · exact absurd h (by simp)
      split at h
      · rw [Option.some.injEq] at h
        subst h
        simp
      · exact absurd h (by simp)
    | s0 :: s1 :: s2 :: s3 :: rest =>
      simp only [b64decodeN, Option.bind_eq_bind] at h
      cases hv : dec4 cs s0 s1 s2 s3 <;> rw [hv] at h <;>
        simp only [Option.none_bind, Option.some_bind] at h
      · exact absurd h (by simp)
      cases hr : b64decodeN cs rest <;> rw [hr] at h <;>
        simp only [Option.none_bind, Option.some_bind] at h
      · exact absurd h (by simp)
      rw [Option.some.injEq] at h
      subst h
      have hrest := ih rest _ (by simp at hlen; omega) hr
      rcases hrest with ⟨h1, h2⟩
      simp only [List.length_cons]
      have e1 : (rest.length + 1 + 1 + 1 + 1) % 4 = rest.length % 4 := by omega
      have e2 : (rest.length + 1 + 1 + 1 + 1) / 4 = rest.length / 4 + 1 := by omega
      rw [e1, e2]
      exact ⟨h1, by omega⟩

theorem b64checkN_iff (cs : List Nat) :
    ∀ n (s : List Nat), s.length ≤ n →
      (b64checkN cs s = true ↔ (b64decodeN cs s).isSome = true) := by
  intro n
  induction n with
  | zero =>
    intro s hlen
    have : s = [] := List.eq_nil_of_length_eq_zero (Nat.le_zero.mp hlen)
    subst this
    simp [b64checkN, b64decodeN]
  | succ n ih =>
    intro s hlen
    match s with
    | [] => simp [b64checkN, b64decodeN]
    | [s0] => simp [b64checkN, b64decodeN]
    | [s0, s1] =>
      cases h0 : lk cs s0 <;> cases h1 : lk cs s1 <;>
        simp [b64checkN, b64decodeN, h0, h1] <;>
        (try (split <;> simp_all))
    | [s0, s1, s2] =>
      cases h0 : lk cs s0 <;> cases h1 : lk cs s1 <;> cases h2 : lk cs s2 <;>
        simp [b64checkN, b64decodeN, h0, h1, h2] <;>
        (try (split <;> simp_all))
    | s0 :: s1 :: s2 :: s3 :: rest =>
      have hrest := ih rest (by simp at hlen; omega)
      cases h0 : lk cs s0 <;> cases h1 : lk cs s1 <;> cases h2 : lk cs s2 <;>
        cases h3 : lk cs s3 <;>
        simp [b64checkN, b64decodeN, dec4, h0, h1, h2, h3, hrest] <;>
        (cases hr : b64decodeN cs rest <;> simp [hr] at hrest ⊢ <;> simp [hrest])

theorem b64dl_spec (padding : Bool) (s : List Nat) (nm : Nat × Nat)
    (h : b64decodedLength padding s = some nm) :
    nm.1 ≤ s.length ∧
      nm.2 = nm.1 / 4 * 3 + (if nm.1 % 4 = 0 then 0 else nm.1 % 4 - 1) := by
  unfold b64decodedLength at h
  cases padding with
  | false =>
    simp only [Bool.false_eq_true, if_false] at h
    split at h
    · exact absurd h (by simp)
    · rw [Option.some.injEq] at h
      subst h
      simp
  | true =>
    simp only [if_true] at h
    by_cases h0 : s.length = 0
    · rw [if_pos h0] at h
      rw [Option.some.injEq] at h
      subst h
      simp
    · rw [if_neg h0] at h
      by_cases h4 : s.length % 4 ≠ 0
      · rw [if_pos h4] at h
        exact absurd h (by simp)
      · rw [if_neg h4] at h
        push_neg at h4
        rw [Option.some.injEq] at h
        subst h
        have hlen4 : 4 ≤ s.length := by omega
        by_cases hl1 : s.getD (s.length - 1) 0 = 61
        · by_cases hl2 : s.getD (s.length - 2) 0 = 61
          · rw [if_pos hl1, if_pos hl2]
            refine ⟨by simp, ?_⟩
            have e1 : (s.length - 2) % 4 = 2 := by omega
            simp only [e1]
            norm_num
            omega
          · rw [if_pos hl1, if_neg hl2]
            refine ⟨by simp, ?_⟩
            have e1 : (s.length - 1) % 4 = 3 := by omega
            simp only [e1]
            norm_num
            omega
        · rw [if_neg hl1]
          refine ⟨by simp, ?_⟩
          have e1 : (s.length - 0) % 4 = 0 := by omega
          simp only [Nat.sub_zero] at *
          simp only [h4]
          norm_num

theorem b64padCount_eq (r : Nat) :
    b64padCount r = if r = 1 then 2 else if r = 2 then 1 else 0 := by
  rcases r with _ | _ | _ | n <;> simp [b64padCount]

theorem b64encode_length (cs : List Nat) (padding : Bool) (b : List Nat) :
    (b64encode cs padding b).length = encoded_length_unchecked b.length padding := by
  unfold b64encode encoded_length_unchecked
  rw [List.length_append, b64encodeCore_length cs b.length b le_rfl]
  have hm3 : b.length % 3 < 3 := Nat.mod_lt _ (by norm_num)
  cases padding with
  | false =>
    simp only [Bool.false_eq_true, if_false, List.length_nil]
    rcases h3 : b.length % 3 with _ | _ | _ | k <;> simp [h3] <;> omega
  | true =>
    simp only [if_true, List.length_replicate]
    rcases h3 : b.length % 3 with _ | _ | _ | k <;> simp [h3, b64padCount] <;> omega

theorem b64dl_pad_eval (s : List Nat) (h0 : s.length ≠ 0) (h4 : s.length % 4 = 0) :
    b64decodedLength true s =
      some (s.length -
        (if s.getD (s.length - 1) 0 = 61 then
          if s.getD (s.length - 2) 0 = 61 then 2 else 1
         else 0),
        s.length / 4 * 3 -
        (if s.getD (s.length - 1) 0 = 61 then
          if s.getD (s.length - 2) 0 = 61 then 2 else 1
         else 0)) := by
  unfold b64decodedLength
  rw [if_pos rfl, if_neg h0, if_neg (by omega : ¬ s.length % 4 ≠ 0)]

theorem b64_roundtrip (cs : List Nat)
    (hinv : ∀ i, i < 64 → lk cs (cs.getD i 0) = some i) (hclen : cs.length = 64)
    (h61 : ∀ x ∈ cs, x ≠ 61) (padding : Bool) (b : List Nat)
    (hb : ∀ x ∈ b, x < 256) :
    b64decode cs padding (b64encode cs padding b) = some b := by
  have hcore : b64decodeN cs (b64encodeCore cs b) = some b :=
    b64decodeN_encodeCore cs hinv b.length b le_rfl hb
  have hcorelen := b64encodeCore_length cs b.length b le_rfl
  have hmem61 : ∀ y ∈ b64encodeCore cs b, y ≠ 61 := fun y hy =>
    h61 y (b64encodeCore_mem cs hclen b.length b le_rfl hb y hy)
  have hm3 : b.length % 3 < 3 := Nat.mod_lt _ (by norm_num)
  cases padding with
  | false =>
    unfold b64decode b64encode
    rw [if_neg (by simp), List.append_nil]
    have h41 : ¬ (b64encodeCore cs b).length % 4 = 1 := by
      rcases h3 : b.length % 3 with _ | _ | _ | k <;> rw [h3] at hcorelen <;>
        simp at hcorelen <;> omega
    unfold b64decodedLength
    rw [if_neg (by simp), if_neg h41]
    simp only [Option.bind_eq_bind, Option.some_bind, List.take_length]
    exact hcore
  | true =>
    by_cases hb0 : b = []
    · subst hb0
      simp [b64encode, b64encodeCore, b64padCount, b64decode, b64decodedLength, b64decodeN]
    · have hL1 : 1 ≤ b.length := by
        cases b with
        | nil => exact absurd rfl hb0
        | cons x t => simp
      unfold b64decode b64encode
      rw [if_pos rfl]
      set core := b64encodeCore cs b with hcoredef
      rcases h3 : b.length % 3 with _ | _ | _ | k
      · -- input length a multiple of 3: no pad bytes appended
        rw [h3] at hcorelen
        norm_num at hcorelen
        have hLd : 1 ≤ b.length / 3 := by omega
        have hlast : core.getD (core.length - 1) 0 ≠ 61 :=
          hmem61 _ (getD_mem_of_lt (by omega) 0)
        rw [b64padCount_eq, if_neg (by omega), if_neg (by omega), List.replicate_zero,
          List.append_nil]
        have hdl := b64dl_pad_eval core (by omega) (by omega)
        rw [if_neg hlast] at hdl
        rw [hdl]
        simp only [Option.bind_eq_bind, Option.some_bind, Nat.sub_zero, List.take_length]
        exact hcore
      · -- input remainder 1: two pad bytes appended
        rw [h3] at hcorelen
        norm_num at hcorelen
        rw [b64padCount_eq, if_pos rfl]
        have hrep : List.replicate 2 61 = [61, 61] := rfl
        rw [hrep]
        have hslen : (core ++ [61, 61]).length = core.length + 2 := by simp
        have hdl := b64dl_pad_eval (core ++ [61, 61]) (by omega) (by omega)
        have hc1 : (core ++ [61, 61]).getD ((core ++ [61, 61]).length - 1) 0 = 61 := by
          have e : (core ++ [61, 61]).length - 1 = core.length + 1 := by omega
          rw [e, List.getD_append_right _ _ _ _ (by omega)]
          simp
        have hc2 : (core ++ [61, 61]).getD ((core ++ [61, 61]).length - 2) 0 = 61 := by
          have e : (core ++ [61, 61]).length - 2 = core.length := by omega
          rw [e, List.getD_append_right _ _ _ _ (by omega)]
          simp
        rw [if_pos hc1, if_pos hc2] at hdl
        rw [hdl]
        simp only [Option.bind_eq_bind, Option.some_bind]
        have hn : (core ++ [61, 61]).length - 2 = core.length := by omega
        rw [hn, List.take_left]
        exact hcore
      · -- input remainder 2: one pad byte appended
        rw [h3] at hcorelen
        norm_num at hcorelen
        have hlast : core.getD (core.length - 1) 0 ≠ 61 :=
          hmem61 _ (getD_mem_of_lt (by omega) 0)
        rw [b64padCount_eq, if_neg (by omega), if_pos rfl]
        have hrep : List.replicate 1 61 = [61] := rfl
        rw [hrep]
        have hslen : (core ++ [61]).length = core.length + 1 := by simp
        have hdl := b64dl_pad_eval (core ++ [61]) (by omega) (by omega)
        have hc1 : (core ++ [61]).getD ((core ++ [61]).length - 1) 0 = 61 := by
          have e : (core ++ [61]).length - 1 = core.length := by omega
          rw [e, List.getD_append_right _ _ _ _ (by omega)]
          simp
        have hc2 : (core ++ [61]).getD ((core ++ [61]).length - 2) 0 ≠ 61 := by
          have e : (core ++ [61]).length - 2 = core.length - 1 := by omega
          rw [e, List.getD_append _ _ _ _ (by omega)]
          exact hlast
        rw [if_pos hc1, if_neg hc2] at hdl
        rw [hdl]
        simp only [Option.bind_eq_bind, Option.some_bind]
        have hn : (core ++ [61]).length - 1 = core.length := by omega
        rw [hn, List.take_left]
        exact hcore
      · omega

theorem b64check_iff_decode (cs : List Nat) (padding : Bool) (s : List Nat) :
    b64check cs padding s = true ↔ (b64decode cs padding s).isSome = true := by
  unfold b64check b64decode
  cases hdl : b64decodedLength padding s with
  | none => exact Iff.rfl
  | some nm =>
    simp only [Option.bind_eq_bind, Option.some_bind]
    exact b64checkN_iff cs (s.take nm.1).length _ le_rfl

theorem b64decode_length_eq (cs : List Nat) (padding : Bool) (s r : List Nat)
    (h : b64decode cs padding s = some r) :
    (b64decodedLength padding s).map (fun nm => nm.2) = some r.length := by
  unfold b64decode at h
  cases hdl : b64decodedLength padding s with
  | none => rw [hdl] at h; simp at h
  | some nm =>
    rw [hdl] at h
    simp only [Option.bind_eq_bind, Option.some_bind] at h
    have hspec := b64dl_spec padding s nm hdl
    have hlen := b64decodeN_length cs (s.take nm.1).length _ r le_rfl h
    have htl : (s.take nm.1).length = nm.1 := by
      rw [List.length_take]
      omega
    rw [htl] at hlen
    show some nm.2 = some r.length
    exact congrArg some (by rw [hspec.2, hlen.2])

/-! ## Base32 lemmas -/

theorem b32_inv : ∀ i, i < 32 → lk BASE32_CHARSET (BASE32_CHARSET.getD i 0) = some i := by
  decide

theorem b32h_inv : ∀ i, i < 32 → lk BASE32HEX_CHARSET (BASE32HEX_CHARSET.getD i 0) = some i := by
  decide

theorem b32_len : BASE32_CHARSET.length = 32 := by decide

theorem b32h_len : BASE32HEX_CHARSET.length = 32 := by decide

theorem b32_ne61 : ∀ x ∈ BASE32_CHARSET, x ≠ 61 := by decide

theorem b32h_ne61 : ∀ x ∈ BASE32HEX_CHARSET, x ≠ 61 := by decide

theorem kindCharset_inv (kind : Kind) :
    ∀ i, i < 32 → lk (kindCharset kind) ((kindCharset kind).getD i 0) = some i := by
  cases kind
  · exact b32_inv
  · exact b32h_inv

theorem kindCharset_len (kind : Kind) : (kindCharset kind).length = 32 := by
  cases kind
  · exact b32_len
  · exact b32h_len

theorem kindCharset_ne61 (kind : Kind) : ∀ x ∈ kindCharset kind, x ≠ 61 := by
  cases kind
  · exact b32_ne61
  · exact b32h_ne61

theorem dec8_enc (cs : List Nat) (hinv : ∀ i, i < 32 → lk cs (cs.getD i 0) = some i)
    (a b c d e : Nat) (ha : a < 256) (hb : b < 256) (hc : c < 256) (hd : d < 256)
    (he : e < 256) :
    dec8 cs (cs.getD (a / 8) 0) (cs.getD (a % 8 * 4 + b / 64) 0) (cs.getD (b / 2 % 32) 0)
      (cs.getD (b % 2 * 16 + c / 16) 0) (cs.getD (c % 16 * 2 + d / 128) 0)
      (cs.getD (d / 4 % 32) 0) (cs.getD (d % 4 * 8 + e / 32) 0) (cs.getD (e % 32) 0) =
      some (a, b, c, d, e) := by
  unfold dec8
  rw [hinv _ (by omega), hinv _ (by omega), hinv _ (by omega), hinv _ (by omega),
    hinv _ (by omega), hinv _ (by omega), hinv _ (by omega), hinv _ (by omega)]
  simp only [Option.bind_eq_bind, Option.some_bind, Option.some.injEq, Prod.mk.injEq]
  refine ⟨by omega, by omega, by omega, by omega, by omega⟩

theorem b32decodeN_encodeCore (cs : List Nat)
    (hinv : ∀ i, i < 32 → lk cs (cs.getD i 0) = some i) :
    ∀ n (b : List Nat), b.length ≤ n → (∀ x ∈ b, x < 256) →
      b32decodeN cs (b32encodeCore cs b) = some b := by
  intro n
  induction n with
  | zero =>
    intro b hlen _
    have : b = [] := List.eq_nil_of_length_eq_zero (Nat.le_zero.mp hlen)
    subst this
    rfl
  | succ n ih =>
    intro b hlen hmem
    match b with
    | [] => rfl
    | [a] =>
      have ha : a < 256 := hmem a (by simp)
      simp only [b32encodeCore, b32decodeN, b32decodeExtra]
      rw [hinv _ (by omega), hinv _ (by omega)]
      simp only [Option.bind_eq_bind, Option.some_bind]
      rw [if_pos (by omega)]
      have : a / 8 * 8 + a % 8 * 4 / 4 = a := by omega
      rw [this]
    | [a, b2] =>
      have ha : a < 256 := hmem a (by simp)
      have hb : b2 < 256 := hmem b2 (by simp)
      simp only [b32encodeCore, b32decodeN, b32decodeExtra]
      rw [hinv _ (by omega), hinv _ (by omega), hinv _ (by omega), hinv _ (by omega)]
      simp only [Option.bind_eq_bind, Option.some_bind]
      rw [if_pos (by omega)]
      have h1 : a / 8 * 8 + (a % 8 * 4 + b2 / 64) / 4 = a := by omega
      have h2 : (a % 8 * 4 + b2 / 64) % 4 * 64 + b2 / 2 % 32 * 2 + b2 % 2 * 16 / 16 = b2 := by
        omega
      rw [h1, h2]
    | [a, b2, c] =>
      have ha : a < 256 := hmem a (by simp)
      have hb : b2 < 256 := hmem b2 (by simp)
      have hc : c < 256 := hmem c (by simp)
      simp only [b32encodeCore, b32decodeN, b32decodeExtra]
      rw [hinv _ (by omega), hinv _ (by omega), hinv _ (by omega), hinv _ (by omega),
        hinv _ (by omega)]
      simp only [Option.bind_eq_bind, Option.some_bind]
      rw [if_pos (by omega)]
      have h1 : a / 8 * 8 + (a % 8 * 4 + b2 / 64) / 4 = a := by omega
      have h2 : (a % 8 * 4 + b2 / 64) % 4 * 64 + b2 / 2 % 32 * 2 +
          (b2 % 2 * 16 + c / 16) / 16 = b2 := by omega
      have h3 : (b2 % 2 * 16 + c / 16) % 16 * 16 + c % 16 * 2 / 2 = c := by omega
      rw [h1, h2, h3]
    | [a, b2, c, d] =>
      have ha : a < 256 := hmem a (by simp)
      have hb : b2 < 256 := hmem b2 (by simp)
      have hc : c < 256 := hmem c (by simp)
      have hd : d < 256 := hmem d (by simp)
      simp only [b32encodeCore, b32decodeN, b32decodeExtra]
      rw [hinv _ (by omega), hinv _ (by omega), hinv _ (by omega), hinv _ (by omega),
        hinv _ (by omega), hinv _ (by omega), hinv _ (by omega)]
      simp only [Option.bind_eq_bind, Option.some_bind]
      rw [if_pos (by omega)]
      have h1 : a / 8 * 8 + (a % 8 * 4 + b2 / 64) / 4 = a := by omega
      have h2 : (a % 8 * 4 + b2 / 64) % 4 * 64 + b2 / 2 % 32 * 2 +
          (b2 % 2 * 16 + c / 16) / 16 = b2 := by omega
      have h3 : (b2 % 2 * 16 + c / 16) % 16 * 16 + (c % 16 * 2 + d / 128) / 2 = c := by omega
      have h4 : (c % 16 * 2 + d / 128) % 2 * 128 + d / 4 % 32 * 4 + d % 4 * 8 / 8 = d := by
        omega
      rw [h1, h2, h3, h4]
    | a :: b2 :: c :: d :: e :: rest =>
      have ha : a < 256 := hmem a (by simp)
      have hb : b2 < 256 := hmem b2 (by simp)
      have hc : c < 256 := hmem c (by simp)
      have hd : d < 256 := hmem d (by simp)
      have he : e < 256 := hmem e (by simp)
      simp only [b32encodeCore, b32decodeN]
      rw [dec8_enc cs hinv a b2 c d e ha hb hc hd he]
      have hrest : b32decodeN cs (b32encodeCore cs rest) = some rest := by
        apply ih rest (by simp at hlen; omega)
        exact fun y hy => hmem y (by simp [hy])
      rw [Option.bind_eq_bind, Option.some_bind, hrest]
      rfl

theorem b32encodeCore_length (cs : List Nat) :
    ∀ n (b : List Nat), b.length ≤ n →
      (b32encodeCore cs b).length = b.length / 5 * 8 +
        (if b.length % 5 = 0 then 0 else if b.length % 5 = 1 then 2
         else if b.length % 5 = 2 then 4 else if b.length % 5 = 3 then 5 else 7) := by
  intro n
  induction n with
  | zero =>
    intro b hlen
    have : b = [] := List.eq_nil_of_length_eq_zero (Nat.le_zero.mp hlen)
    subst this
    rfl
  | succ n ih =>
    intro b hlen
    match b with
    | [] => rfl
    | [a] => simp [b32encodeCore]
    | [a, b2] => simp [b32encodeCore]
    | [a, b2, c] => simp [b32encodeCore]
    | [a, b2, c, d] => simp [b32encodeCore]
    | a :: b2 :: c :: d :: e :: rest =>
      simp only [b32encodeCore, List.length_cons]
      rw [ih rest (by simp at hlen; omega)]
      have e1 : (rest.length + 1 + 1 + 1 + 1 + 1) % 5 = rest.length % 5 := by omega
      have e2 : (rest.length + 1 + 1 + 1 + 1 + 1) / 5 = rest.length / 5 + 1 := by omega
      simp only [e1, e2]
      omega

theorem b32encodeCore_mem (cs : List Nat) (hclen : cs.length = 32) :
    ∀ n (b : List Nat), b.length ≤ n → (∀ x ∈ b, x < 256) →
      ∀ y ∈ b32encodeCore cs b, y ∈ cs := by
  intro n
  induction n with
  | zero =>
    intro b hblen _
    have : b = [] := List.eq_nil_of_length_eq_zero (Nat.le_zero.mp hblen)
    subst this
    intro y hy
    simp [b32encodeCore] at hy
  | succ n ih =>
    intro b hblen hmem
    match b with
    | [] => intro y hy; simp [b32encodeCore] at hy
    | [a] =>
      have ha : a < 256 := hmem a (by simp)
      intro y hy
      simp only [b32encodeCore, List.mem_cons, List.not_mem_nil, or_false] at hy
      rcases hy with h | h <;> (subst h; exact getD_mem_of_lt (by omega) 0)
    | [a, b2] =>
      have ha : a < 256 := hmem a (by simp)
      have hb : b2 < 256 := hmem b2 (by simp)
      intro y hy
      simp only [b32encodeCore, List.mem_cons, List.not_mem_nil, or_false] at hy
      rcases hy with h | h | h | h <;> (subst h; exact getD_mem_of_lt (by omega) 0)
    | [a, b2, c] =>
      have ha : a < 256 := hmem a (by simp)
      have hb : b2 < 256 := hmem b2 (by simp)
      have hc : c < 256 := hmem c (by simp)
      intro y hy
      simp only [b32encodeCore, List.mem_cons, List.not_mem_nil, or_false] at hy
      rcases hy with h | h | h | h | h <;> (subst h; exact getD_mem_of_lt (by omega) 0)
    | [a, b2, c, d] =>
      have ha : a < 256 := hmem a (by simp)
      have hb : b2 < 256 := hmem b2 (by simp)
      have hc : c < 256 := hmem c (by simp)
      have hd : d < 256 := hmem d (by simp)
      intro y hy
      simp only [b32encodeCore, List.mem_cons, List.not_mem_nil, or_false] at hy
      rcases hy with h | h | h | h | h | h | h <;> (subst h; exact getD_mem_of_lt (by omega) 0)
    | a :: b2 :: c :: d :: e :: rest =>
      have ha : a < 256 := hmem a (by simp)
      have hb : b2 < 256 := hmem b2 (by simp)
      have hc : c < 256 := hmem c (by simp)
      have hd : d < 256 := hmem d (by simp)
      have he : e < 256 := hmem e (by simp)
      intro y hy
      simp only [b32encodeCore, List.mem_cons] at hy
      rcases hy with h | h | h | h | h | h | h | h | h
      · subst h; exact getD_mem_of_lt (by omega) 0
      · subst h; exact getD_mem_of_lt (by omega) 0
      · subst h; exact getD_mem_of_lt (by omega) 0
      · subst h; exact getD_mem_of_lt (by omega) 0
      · subst h; exact getD_mem_of_lt (by omega) 0
      · subst h; exact getD_mem_of_lt (by omega) 0
      · subst h; exact getD_mem_of_lt (by omega) 0
      · subst h; exact getD_mem_of_lt (by omega) 0
      · exact ih rest (by simp at hblen; omega) (fun y hy => hmem y (by simp [hy])) y h

theorem b32decodeExtra_length (cs : List Nat) (s r : List Nat)
    (h : b32decodeExtra cs s = some r) :
    (s.length = 0 ∧ r.length = 0) ∨ (s.length = 2 ∧ r.length = 1) ∨
    (s.length = 4 ∧ r.length = 2) ∨ (s.length = 5 ∧ r.length = 3) ∨
    (s.length = 7 ∧ r.length = 4) := by
  match s with
  | [] =>
    left
    simp only [b32decodeExtra, Option.some.injEq] at h
    subst h
    simp
  | [s0] => simp [b32decodeExtra] at h
  | [s0, s1] =>
    right; left
    refine ⟨by simp, ?_⟩
    simp only [b32decodeExtra, Option.bind_eq_bind] at h
    rcases h0 : lk cs s0 with _ | y0 <;> rw [h0] at h <;>
      simp only [Option.none_bind, Option.some_bind] at h
    · cases h
    rcases h1 : lk cs s1 with _ | y1 <;> rw [h1] at h <;>
      simp only [Option.none_bind, Option.some_bind] at h
    · cases h
    split at h
    · rw [Option.some.injEq] at h
      subst h
      rfl
    · cases h
  | [s0, s1, s2] => simp [b32decodeExtra] at h
  | [s0, s1, s2, s3] =>
    right; right; left
    refine ⟨by simp, ?_⟩
    simp only [b32decodeExtra, Option.bind_eq_bind] at h
    rcases h0 : lk cs s0 with _ | y0 <;> rw [h0] at h <;>
      simp only [Option.none_bind, Option.some_bind] at h
    · cases h
    rcases h1 : lk cs s1 with _ | y1 <;> rw [h1] at h <;>
      simp only [Option.none_bind, Option.some_bind] at h
    · cases h
    rcases h2 : lk cs s2 with _ | y2 <;> rw [h2] at h <;>
      simp only [Option.none_bind, Option.some_bind] at h
    · cases h
    rcases h3 : lk cs s3 with _ | y3 <;> rw [h3] at h <;>
      simp only [Option.none_bind, Option.some_bind] at h
    · cases h
    split at h
    · rw [Option.some.injEq] at h
      subst h
      rfl
    · cases h
  | [s0, s1, s2, s3, s4] =>
    right; right; right; left
    refine ⟨by simp, ?_⟩
    simp only [b32decodeExtra, Option.bind_eq_bind] at h
    rcases h0 : lk cs s0 with _ | y0 <;> rw [h0] at h <;>
      simp only [Option.none_bind, Option.some_bind] at h
    · cases h
    rcases h1 : lk cs s1 with _ | y1 <;> rw [h1] at h <;>
      simp only [Option.none_bind, Option.some_bind] at h
    · cases h
    rcases h2 : lk cs s2 with _ | y2 <;> rw [h2] at h <;>
      simp only [Option.none_bind, Option.some_bind] at h
    · cases h
    rcases h3 : lk cs s3 with _ | y3 <;> rw [h3] at h <;>
      simp only [Option.none_bind, Option.some_bind] at h
    · cases h
    rcases h4 : lk cs s4 with _ | y4 <;> rw [h4] at h <;>
      simp only [Option.none_bind, Option.some_bind] at h
    · cases h
    split at h
    · rw [Option.some.injEq] at h
      subst h
      rfl
    · cases h
  | [s0, s1, s2, s3, s4, s5] => simp [b32decodeExtra] at h
  | [s0, s1, s2, s3, s4, s5, s6] =>
    right; right; right; right
    refine ⟨by simp, ?_⟩
    simp only [b32decodeExtra, Option.bind_eq_bind] at h
    rcases h0 : lk cs s0 with _ | y0 <;> rw [h0] at h <;>
      simp only [Option.none_bind, Option.some_bind] at h
    · cases h
    rcases h1 : lk cs s1 with _ | y1 <;> rw [h1] at h <;>
      simp only [Option.none_bind, Option.some_bind] at h
    · cases h
    rcases h2 : lk cs s2 with _ | y2 <;> rw [h2] at h <;>
      simp only [Option.none_bind, Option.some_bind] at h
    · cases h
    rcases h3 : lk cs s3 with _ | y3 <;> rw [h3] at h <;>
      simp only [Option.none_bind, Option.some_bind] at h
    · cases h
    rcases h4 : lk cs s4 with _ | y4 <;> rw [h4] at h <;>
      simp only [Option.none_bind, Option.some_bind] at h
    · cases h
    rcases h5 : lk cs s5 with _ | y5 <;> rw [h5] at h <;>
      simp only [Option.none_bind, Option.some_bind] at h
    · cases h
    rcases h6 : lk cs s6 with _ | y6 <;> rw [h6] at h <;>
      simp only [Option.none_bind, Option.some_bind] at h
    · cases h
    split at h
    · rw [Option.some.injEq] at h
      subst h
      rfl
    · cases h
  | s0 :: s1 :: s2 :: s3 :: s4 :: s5 :: s6 :: s7 :: t => simp [b32decodeExtra] at h

theorem decode_extra_chk_iff (cs : List Nat) (s : List Nat) :
    decode_extra_chk cs s = (b32decodeExtra cs s).isSome := by
  match s with
  | [] => rfl
  | [s0] => rfl
  | [s0, s1] =>
    simp only [decode_extra_chk, b32decodeExtra, Option.bind_eq_bind]
    cases h0 : lk cs s0 with
    | none => simp
    | some y0 =>
      simp only [Option.some_bind, Option.isSome_some, Bool.true_and]
      cases h1 : lk cs s1 with
      | none => simp
      | some y1 => by_cases hc : y1 % 4 = 0 <;> simp [hc]
  | [s0, s1, s2] => rfl
  | [s0, s1, s2, s3] =>
    simp only [decode_extra_chk, b32decodeExtra, Option.bind_eq_bind]
    cases h0 : lk cs s0 with
    | none => simp
    | some y0 =>
      simp only [Option.some_bind, Option.isSome_some, Bool.true_and]
      cases h1 : lk cs s1 with
      | none => simp
      | some y1 =>
        simp only [Option.some_bind, Option.isSome_some, Bool.true_and]
        cases h2 : lk cs s2 with
        | none => simp
        | some y2 =>
          simp only [Option.some_bind, Option.isSome_some, Bool.true_and]
          cases h3 : lk cs s3 with
          | none => simp
          | some y3 => by_cases hc : y3 % 16 = 0 <;> simp [hc]
  | [s0, s1, s2, s3, s4] =>
    simp only [decode_extra_chk, b32decodeExtra, Option.bind_eq_bind]
    cases h0 : lk cs s0 with
    | none => simp
    | some y0 =>
      simp only [Option.some_bind, Option.isSome_some, Bool.true_and]
      cases h1 : lk cs s1 with
      | none => simp
      | some y1 =>
        simp only [Option.some_bind, Option.isSome_some, Bool.true_and]
        cases h2 : lk cs s2 with
        | none => simp
        | some y2 =>
          simp only [Option.some_bind, Option.isSome_some, Bool.true_and]
          cases h3 : lk cs s3 with
          | none => simp
          | some y3 =>
            simp only [Option.some_bind, Option.isSome_some, Bool.true_and]
            cases h4 : lk cs s4 with
            | none => simp
            | some y4 => by_cases hc : y4 % 2 = 0 <;> simp [hc]
  | [s0, s1, s2, s3, s4, s5] => rfl
  | [s0, s1, s2, s3, s4, s5, s6] =>
    simp only [decode_extra_chk, b32decodeExtra, Option.bind_eq_bind]
    cases h0 : lk cs s0 with
    | none => simp
    | some y0 =>
      simp only [Option.some_bind, Option.isSome_some, Bool.true_and]
      cases h1 : lk cs s1 with
      | none => simp
      | some y1 =>
        simp only [Option.some_bind, Option.isSome_some, Bool.true_and]
        cases h2 : lk cs s2 with
        | none => simp
        | some y2 =>
          simp only [Option.some_bind, Option.isSome_some, Bool.true_and]
          cases h3 : lk cs s3 with
          | none => simp
          | some y3 =>
            simp only [Option.some_bind, Option.isSome_some, Bool.true_and]
            cases h4 : lk cs s4 with
            | none => simp
            | some y4 =>
              simp only [Option.some_bind, Option.isSome_some, Bool.true_and]
              cases h5 : lk cs s5 with
              | none => simp
              | some y5 =>
                simp only [Option.some_bind, Option.isSome_some, Bool.true_and]
                cases h6 : lk cs s6 with
                | none => simp
                | some y6 => by_cases hc : y6 % 8 = 0 <;> simp [hc]
  | s0 :: s1 :: s2 :: s3 :: s4 :: s5 :: s6 :: s7 :: t => rfl

theorem cf_iff_decodeN (kind : Kind) :
    ∀ n (s : List Nat), s.length ≤ n →
      check_fallback kind s = (b32decodeN (kindCharset kind) s).isSome := by
  intro n
  induction n with
  | zero =>
    intro s hlen
    have : s = [] := List.eq_nil_of_length_eq_zero (Nat.le_zero.mp hlen)
    subst this
    rfl
  | succ n ih =>
    intro s hlen
    match s with
    | [] => rfl
    | [s0] => exact decode_extra_chk_iff _ _
    | [s0, s1] => exact decode_extra_chk_iff _ _
    | [s0, s1, s2] => exact decode_extra_chk_iff _ _
    | [s0, s1, s2, s3] => exact decode_extra_chk_iff _ _
    | [s0, s1, s2, s3, s4] => exact decode_extra_chk_iff _ _
    | [s0, s1, s2, s3, s4, s5] => exact decode_extra_chk_iff _ _
    | [s0, s1, s2, s3, s4, s5, s6] => exact decode_extra_chk_iff _ _
    | s0 :: s1 :: s2 :: s3 :: s4 :: s5 :: s6 :: s7 :: rest =>
      have hrest := ih rest (by simp at hlen; omega)
      simp only [check_fallback, b32decodeN, dec8, Option.bind_eq_bind]
      cases h0 : lk (kindCharset kind) s0 with
      | none => simp
      | some y0 =>
        simp only [Option.some_bind, Option.isSome_some, Bool.true_and]
        cases h1 : lk (kindCharset kind) s1 with
        | none => simp
        | some y1 =>
          simp only [Option.some_bind, Option.isSome_some, Bool.true_and]
          cases h2 : lk (kindCharset kind) s2 with
          | none => simp
          | some y2 =>
            simp only [Option.some_bind, Option.isSome_some, Bool.true_and]
            cases h3 : lk (kindCharset kind) s3 with
            | none => simp
            | some y3 =>
              simp only [Option.some_bind, Option.isSome_some, Bool.true_and]
              cases h4 : lk (kindCharset kind) s4 with
              | none => simp
              | some y4 =>
                simp only [Option.some_bind, Option.isSome_some, Bool.true_and]
                cases h5 : lk (kindCharset kind) s5 with
                | none => simp
                | some y5 =>
                  simp only [Option.some_bind, Option.isSome_some, Bool.true_and]
                  cases h6 : lk (kindCharset kind) s6 with
                  | none => simp
                  | some y6 =>
                    simp only [Option.some_bind, Option.isSome_some, Bool.true_and]
                    cases h7 : lk (kindCharset kind) s7 with
                    | none => simp
                    | some y7 =>
                      simp only [Option.some_bind, Option.isSome_some, Bool.true_and]
                      rw [hrest]
                      cases hr : b32decodeN (kindCharset kind) rest <;> simp [hr]

theorem takeWhile61_nil (l : List Nat) (h : ∀ x ∈ l, x ≠ 61) :
    l.takeWhile (fun x => x == 61) = [] := by
  cases l with
  | nil => rfl
  | cons x t =>
    have hx : (x == 61) = false := by simpa using h x (by simp)
    simp [List.takeWhile_cons, hx]

theorem takeWhile61_replicate_append (p : Nat) (l : List Nat) :
    (List.replicate p 61 ++ l).takeWhile (fun x => x == 61) =
      List.replicate p 61 ++ l.takeWhile (fun x => x == 61) := by
  induction p with
  | zero => simp
  | succ q ih => simp [List.replicate_succ, List.takeWhile_cons, ih]

theorem trailingPadRun_eval (core : List Nat) (p : Nat) (h : ∀ x ∈ core, x ≠ 61) :
    trailingPadRun (core ++ List.replicate p 61) = p := by
  unfold trailingPadRun
  rw [List.reverse_append, List.reverse_replicate, takeWhile61_replicate_append,
    takeWhile61_nil _ (fun x hx => h x (List.mem_reverse.mp hx))]
  simp

theorem b32dl_pad_eval (s : List Nat) (h0 : s.length ≠ 0) (h8 : s.length % 8 = 0)
    (p n : Nat) (hp : min (trailingPadRun s) 6 = p) (hn : s.length - p = n) :
    b32decodedLength true s =
      (if n % 8 = 0 then some (n, n / 8 * 5)
       else if n % 8 = 2 then some (n, n / 8 * 5 + 1)
       else if n % 8 = 4 then some (n, n / 8 * 5 + 2)
       else if n % 8 = 5 then some (n, n / 8 * 5 + 3)
       else if n % 8 = 7 then some (n, n / 8 * 5 + 4)
       else none) := by
  subst hn
  subst hp
  unfold b32decodedLength
  rw [if_pos rfl, if_neg h0, if_neg (by omega : ¬ s.length % 8 ≠ 0)]

theorem b32dl_spec (padding : Bool) (s : List Nat) (nm : Nat × Nat)
    (h : b32decodedLength padding s = some nm) :
    nm.1 ≤ s.length ∧
      ((nm.1 % 8 = 0 ∧ nm.2 = nm.1 / 8 * 5) ∨
       (nm.1 % 8 = 2 ∧ nm.2 = nm.1 / 8 * 5 + 1) ∨
       (nm.1 % 8 = 4 ∧ nm.2 = nm.1 / 8 * 5 + 2) ∨
       (nm.1 % 8 = 5 ∧ nm.2 = nm.1 / 8 * 5 + 3) ∨
       (nm.1 % 8 = 7 ∧ nm.2 = nm.1 / 8 * 5 + 4)) := by
  cases padding with
  | false =>
    unfold b32decodedLength at h
    rw [if_neg (by simp)] at h
    split_ifs at h with h1 h2 h3 h4 h5 <;>
      first
        | (rw [Option.some.injEq] at h; subst h; exact ⟨le_rfl, by omega⟩)
        | cases h
  | true =>
    by_cases h0 : s.length = 0
    · unfold b32decodedLength at h
      rw [if_pos rfl, if_pos h0] at h
      rw [Option.some.injEq] at h
      subst h
      exact ⟨by simp, Or.inl (by simp)⟩
    · by_cases h8 : s.length % 8 = 0
      · rw [b32dl_pad_eval s h0 h8 (min (trailingPadRun s) 6)
              (s.length - min (trailingPadRun s) 6) rfl rfl] at h
        split_ifs at h with h1 h2 h3 h4 h5 <;>
          first
            | (rw [Option.some.injEq] at h; subst h; exact ⟨Nat.sub_le _ _, by omega⟩)
            | cases h
      · unfold b32decodedLength at h
        rw [if_pos rfl, if_neg h0, if_pos h8] at h
        cases h

theorem exists_cons8 (l : List Nat) (h : 8 ≤ l.length) :
    ∃ a0 a1 a2 a3 a4 a5 a6 a7 t,
      l = a0 :: a1 :: a2 :: a3 :: a4 :: a5 :: a6 :: a7 :: t := by
  match l with
  | a0 :: a1 :: a2 :: a3 :: a4 :: a5 :: a6 :: a7 :: t =>
    exact ⟨a0, a1, a2, a3, a4, a5, a6, a7, t, rfl⟩
  | [] => simp at h
  | [_] => simp at h
  | [_, _] => simp at h
  | [_, _, _] => simp at h
  | [_, _, _, _] => simp at h
  | [_, _, _, _, _] => simp at h
  | [_, _, _, _, _, _] => simp at h
  | [_, _, _, _, _, _, _] => simp at h

set_option maxHeartbeats 1000000 in
theorem b32decodeN_length (cs : List Nat) :
    ∀ n (s r : List Nat), s.length ≤ n → b32decodeN cs s = some r →
      (s.length % 8 = 0 ∧ r.length = s.length / 8 * 5) ∨
      (s.length % 8 = 2 ∧ r.length = s.length / 8 * 5 + 1) ∨
      (s.length % 8 = 4 ∧ r.length = s.length / 8 * 5 + 2) ∨
      (s.length % 8 = 5 ∧ r.length = s.length / 8 * 5 + 3) ∨
      (s.length % 8 = 7 ∧ r.length = s.length / 8 * 5 + 4) := by
  intro n
  induction n with
  | zero =>
    intro s r hlen h
    have : s = [] := List.eq_nil_of_length_eq_zero (Nat.le_zero.mp hlen)
    subst this
    have he := b32decodeExtra_length cs [] r h
    simp at he
    simp [he]
  | succ n ih =>
    intro s r hlen h
    by_cases h8 : 8 ≤ s.length
    · obtain ⟨a0, a1, a2, a3, a4, a5, a6, a7, t, rfl⟩ := exists_cons8 s h8
      simp only [b32decodeN, Option.bind_eq_bind] at h
      cases hv : dec8 cs a0 a1 a2 a3 a4 a5 a6 a7 <;> rw [hv] at h <;>
        simp only [Option.none_bind, Option.some_bind] at h
      · cases h
      cases hr : b32decodeN cs t <;> rw [hr] at h <;>
        simp only [Option.none_bind, Option.some_bind] at h
      · cases h
      rw [Option.some.injEq] at h
      subst h
      have hrest := ih t _ (by simp at hlen; omega) hr
      clear hv hr hlen ih h8
      simp only [List.length_cons]
      omega
    · match s, h8 with
      | [], _ =>
        have he := b32decodeExtra_length cs [] r h
        simp at he
        simp [he]
      | [s0], _ =>
        have he := b32decodeExtra_length cs [s0] r h
        simp at he
      | [s0, s1], _ =>
        have he := b32decodeExtra_length cs [s0, s1] r h
        simp at he
        simp [he]
      | [s0, s1, s2], _ =>
        have he := b32decodeExtra_length cs [s0, s1, s2] r h
        simp at he
      | [s0, s1, s2, s3], _ =>
        have he := b32decodeExtra_length cs [s0, s1, s2, s3] r h
        simp at he
        simp [he]
      | [s0, s1, s2, s3, s4], _ =>
        have he := b32decodeExtra_length cs [s0, s1, s2, s3, s4] r h
        simp at he
        simp [he]
      | [s0, s1, s2, s3, s4, s5], _ =>
        have he := b32decodeExtra_length cs [s0, s1, s2, s3, s4, s5] r h
        simp at he
      | [s0, s1, s2, s3, s4, s5, s6], _ =>
        have he := b32decodeExtra_length cs [s0, s1, s2, s3, s4, s5, s6] r h
        simp at he
        simp [he]
      | s0 :: s1 :: s2 :: s3 :: s4 :: s5 :: s6 :: s7 :: t, hh => simp at hh

theorem b32_roundtrip (kind : Kind) (padding : Bool) (b : List Nat)
    (hb : ∀ x ∈ b, x < 256) :
    b32decode kind padding (b32encode (kindCharset kind) padding b) = some b := by
  have hcore : b32decodeN (kindCharset kind) (b32encodeCore (kindCharset kind) b) = some b :=
    b32decodeN_encodeCore (kindCharset kind) (kindCharset_inv kind) b.length b le_rfl hb
  have hcorelen := b32encodeCore_length (kindCharset kind) b.length b le_rfl
  have hmem61 : ∀ y ∈ b32encodeCore (kindCharset kind) b, y ≠ 61 := fun y hy =>
    kindCharset_ne61 kind y
      (b32encodeCore_mem (kindCharset kind) (kindCharset_len kind) b.length b le_rfl hb y hy)
  have hm5 : b.length % 5 < 5 := Nat.mod_lt _ (by norm_num)
  set core := b32encodeCore (kindCharset kind) b with hcoredef
  cases padding with
  | false =>
    unfold b32decode b32encode
    rw [if_neg (by simp), List.append_nil, ← hcoredef]
    unfold b32decodedLength
    rw [if_neg (by simp)]
    rcases h5 : b.length % 5 with _ | _ | _ | _ | _ | k <;> rw [h5] at hcorelen <;>
      norm_num at hcorelen
    · rw [if_pos (by omega)]
      simp only [Option.bind_eq_bind, Option.some_bind, List.take_length]
      exact hcore
    · rw [if_neg (by omega), if_pos (by omega)]
      simp only [Option.bind_eq_bind, Option.some_bind, List.take_length]
      exact hcore
    · rw [if_neg (by omega), if_neg (by omega), if_pos (by omega)]
      simp only [Option.bind_eq_bind, Option.some_bind, List.take_length]
      exact hcore
    · rw [if_neg (by omega), if_neg (by omega), if_neg (by omega), if_pos (by omega)]
      simp only [Option.bind_eq_bind, Option.some_bind, List.take_length]
      exact hcore
    · rw [if_neg (by omega), if_neg (by omega), if_neg (by omega), if_neg (by omega),
        if_pos (by omega)]
      simp only [Option.bind_eq_bind, Option.some_bind, List.take_length]
      exact hcore
    · omega
  | true =>
    by_cases hb0 : b = []
    · subst hb0
      simp [b32encode, b32encodeCore, b32padCount, b32decode, b32decodedLength, b32decodeN,
        b32decodeExtra]
    · have hL1 : 1 ≤ b.length := by
        cases b with
        | nil => exact absurd rfl hb0
        | cons x t => simp
      unfold b32decode b32encode
      rw [if_pos rfl, ← hcoredef]
      rcases h5 : b.length % 5 with _ | _ | _ | _ | _ | k <;> rw [h5] at hcorelen <;>
        norm_num at hcorelen
      · -- remainder 0: no padding appended
        have hpv : b32padCount 0 = 0 := by decide
        rw [hpv]
        have hrun : trailingPadRun (core ++ List.replicate 0 61) = 0 :=
          trailingPadRun_eval core 0 hmem61
        have hslen : (core ++ List.replicate 0 61).length = core.length + 0 := by simp
        have hdl := b32dl_pad_eval (core ++ List.replicate 0 61) (by omega) (by omega)
          0 core.length (by omega) (by omega)
        rw [if_pos (by omega)] at hdl
        rw [hdl]
        simp only [Option.bind_eq_bind, Option.some_bind]
        rw [List.take_left]
        exact hcore
      · -- remainder 1: six pad bytes
        have hpv : b32padCount 1 = 6 := by decide
        rw [hpv]
        have hrun : trailingPadRun (core ++ List.replicate 6 61) = 6 :=
          trailingPadRun_eval core 6 hmem61
        have hslen : (core ++ List.replicate 6 61).length = core.length + 6 := by simp
        have hdl := b32dl_pad_eval (core ++ List.replicate 6 61) (by omega) (by omega)
          6 core.length (by omega) (by omega)
        rw [if_neg (by omega), if_pos (by omega)] at hdl
        rw [hdl]
        simp only [Option.bind_eq_bind, Option.some_bind]
        rw [List.take_left]
        exact hcore
      · -- remainder 2: four pad bytes
        have hpv : b32padCount 2 = 4 := by decide
        rw [hpv]
        have hrun : trailingPadRun (core ++ List.replicate 4 61) = 4 :=
          trailingPadRun_eval core 4 hmem61
        have hslen : (core ++ List.replicate 4 61).length = core.length + 4 := by simp
        have hdl := b32dl_pad_eval (core ++ List.replicate 4 61) (by omega) (by omega)
          4 core.length (by omega) (by omega)
        rw [if_neg (by omega), if_neg (by omega), if_pos (by omega)] at hdl
        rw [hdl]
        simp only [Option.bind_eq_bind, Option.some_bind]
        rw [List.take_left]
        exact hcore
      · -- remainder 3: three pad bytes
        have hpv : b32padCount 3 = 3 := by decide
        rw [hpv]
        have hrun : trailingPadRun (core ++ List.replicate 3 61) = 3 :=
          trailingPadRun_eval core 3 hmem61
        have hslen : (core ++ List.replicate 3 61).length = core.length + 3 := by simp
        have hdl := b32dl_pad_eval (core ++ List.replicate 3 61) (by omega) (by omega)
          3 core.length (by omega) (by omega)
        rw [if_neg (by omega), if_neg (by omega), if_neg (by omega), if_pos (by omega)] at hdl
        rw [hdl]
        simp only [Option.bind_eq_bind, Option.some_bind]
        rw [List.take_left]
        exact hcore
      · -- remainder 4: one pad byte
        have hpv : b32padCount 4 = 1 := by decide
        rw [hpv]
        have hrun : trailingPadRun (core ++ List.replicate 1 61) = 1 :=
          trailingPadRun_eval core 1 hmem61
        have hslen : (core ++ List.replicate 1 61).length = core.length + 1 := by simp
        have hdl := b32dl_pad_eval (core ++ List.replicate 1 61) (by omega) (by omega)
          1 core.length (by omega) (by omega)
        rw [if_neg (by omega), if_neg (by omega), if_neg (by omega), if_neg (by omega),
          if_pos (by omega)] at hdl
        rw [hdl]
        simp only [Option.bind_eq_bind, Option.some_bind]
        rw [List.take_left]
        exact hcore
      · omega

theorem b32check_iff_decode (kind : Kind) (padding : Bool) (s : List Nat) :
    b32check kind padding s = true ↔ (b32decode kind padding s).isSome = true := by
  unfold b32check b32decode
  cases hdl : b32decodedLength padding s with
  | none => exact Iff.rfl
  | some nm =>
    simp only [Option.bind_eq_bind, Option.some_bind]
    rw [cf_iff_decodeN kind (s.take nm.1).length _ le_rfl]

theorem b32decode_length_eq (kind : Kind) (padding : Bool) (s r : List Nat)
    (h : b32decode kind padding s = some r) :
    (b32decodedLength padding s).map (fun nm => nm.2) = some r.length := by
  unfold b32decode at h
  cases hdl : b32decodedLength padding s with
  | none => rw [hdl] at h; simp at h
  | some nm =>
    rw [hdl] at h
    simp only [Option.bind_eq_bind, Option.some_bind] at h
    have hspec := b32dl_spec padding s nm hdl
    have hlen := b32decodeN_length (kindCharset kind) (s.take nm.1).length _ r le_rfl h
    have htl : (s.take nm.1).length = nm.1 := by
      rw [List.length_take]
      omega
    rw [htl] at hlen
    show some nm.2 = some r.length
    exact congrArg some (by omega)

theorem cf_append (kind : Kind) :
    ∀ n (a b : List Nat), a.length ≤ n → a.length % 8 = 0 →
      check_fallback kind (a ++ b) =
        (a.all (fun x => (lk (kindCharset kind) x).isSome) && check_fallback kind b) := by
  intro n
  induction n with
  | zero =>
    intro a b hlen _
    have : a = [] := List.eq_nil_of_length_eq_zero (Nat.le_zero.mp hlen)
    subst this
    simp
  | succ n ih =>
    intro a b hlen h8
    by_cases ha0 : a = []
    · subst ha0
      simp
    · have hpos : 0 < a.length := List.length_pos.mpr ha0
      have h8le : 8 ≤ a.length := by omega
      obtain ⟨a0, a1, a2, a3, a4, a5, a6, a7, t, rfl⟩ := exists_cons8 a h8le
      have ht := ih t b (by simp at hlen; omega) (by simp at h8 ⊢; omega)
      simp only [List.cons_append, check_fallback, List.append_eq, ht, List.all_cons, Bool.and_assoc]

theorem check_simd_eq_fallback (kind : Kind) :
    ∀ n (s : List Nat), s.length ≤ n → check_simd kind s = check_fallback kind s := by
  intro n
  induction n with
  | zero =>
    intro s hlen
    have : s = [] := List.eq_nil_of_length_eq_zero (Nat.le_zero.mp hlen)
    subst this
    rw [check_simd]
    rfl
  | succ n ih =>
    intro s hlen
    rw [check_simd]
    by_cases h32 : B32_CHECK_CHUNK ≤ s.length
    · rw [dif_pos h32]
      simp only [B32_CHECK_CHUNK] at h32
      have hdrop : check_simd kind (s.drop B32_CHECK_CHUNK) =
          check_fallback kind (s.drop B32_CHECK_CHUNK) := by
        apply ih
        simp only [List.length_drop, B32_CHECK_CHUNK]
        omega
      have htake : (s.take B32_CHECK_CHUNK).length % 8 = 0 := by
        simp only [List.length_take, B32_CHECK_CHUNK]
        omega
      have happ := cf_append kind (s.take B32_CHECK_CHUNK).length (s.take B32_CHECK_CHUNK)
        (s.drop B32_CHECK_CHUNK) le_rfl htake
      rw [List.take_append_drop] at happ
      rw [hdrop, happ]
      rfl
    · rw [dif_neg h32]

/-! ## Remaining helper lemmas -/

theorem hexDecode_length :
    ∀ n (s r : List Nat), s.length ≤ n → hexDecode s = some r →
      s.length % 2 = 0 ∧ r.length = s.length / 2 := by
  intro n
  induction n with
  | zero =>
    intro s r hlen h
    have : s = [] := List.eq_nil_of_length_eq_zero (Nat.le_zero.mp hlen)
    subst this
    simp only [hexDecode, Option.some.injEq] at h
    subst h
    simp
  | succ n ih =>
    intro s r hlen h
    match s with
    | [] =>
      simp only [hexDecode, Option.some.injEq] at h
      subst h
      simp
    | [x] => simp [hexDecode] at h
    | x :: l :: rest =>
      simp only [hexDecode, Option.bind_eq_bind] at h
      cases h0 : hexDecodeByte x <;> rw [h0] at h <;>
        simp only [Option.none_bind, Option.some_bind] at h
      · cases h
      cases h1 : hexDecodeByte l <;> rw [h1] at h <;>
        simp only [Option.none_bind, Option.some_bind] at h
      · cases h
      cases hr : hexDecode rest <;> rw [hr] at h <;>
        simp only [Option.none_bind, Option.some_bind] at h
      · cases h
      rw [Option.some.injEq] at h
      subst h
      have hrest := ih rest _ (by simp at hlen; omega) hr
      simp only [List.length_cons]
      omega

theorem erf_length (c : AsciiCase) (src : List Nat) :
    (encode_raw_fallback src c).length = 2 * src.length := by
  induction src with
  | nil => rfl
  | cons x rest ih =>
    simp only [encode_raw_fallback, List.length_cons, ih]
    omega

theorem encode_u8x16_length (c : AsciiCase) (l : List Nat) :
    (encode_u8x16 l c).length = 2 * l.length := by
  induction l with
  | nil => rfl
  | cons x rest ih =>
    simp only [encode_u8x16, List.length_cons, ih]
    omega

theorem erf_getD (c : AsciiCase) :
    ∀ (src : List Nat) (i : Nat), (∀ y ∈ src, y < 256) → i < src.length →
      (encode_raw_fallback src c).getD (2 * i) 0 =
          (nibTable c).getD (src.getD i 0 / 16) 0 ∧
        (encode_raw_fallback src c).getD (2 * i + 1) 0 =
          (nibTable c).getD (src.getD i 0 % 16) 0 := by
  intro src
  induction src with
  | nil =>
    intro i _ hi
    simp at hi
  | cons x rest ih =>
    intro i hmem hi
    have hx : x < 256 := hmem x (by simp)
    cases i with
    | zero =>
      simp only [encode_raw_fallback, hexFullTable_eq, full_table_getD_divmod (nibTable c) x hx,
        Nat.mul_zero, List.getD_cons_zero, List.getD_cons_succ]
      exact ⟨trivial, trivial⟩
    | succ j =>
      have hj : j < rest.length := by simp at hi; omega
      have hrest := ih j (fun y hy => hmem y (by simp [hy])) hj
      have e1 : 2 * (j + 1) = 2 * j + 1 + 1 := by omega
      have e2 : 2 * (j + 1) + 1 = 2 * j + 1 + 1 + 1 := by omega
      simp only [encode_raw_fallback, e1, e2, List.getD_cons_succ, List.getD_cons_zero]
      exact hrest

/-! ## Claim theorems -/

/-- Claim C1: for every variant and every byte sequence `b` (hex, base32,
base32hex, base64 and base64url, each with and without padding where
applicable), decoding the encoding of `b` succeeds and returns exactly `b`. -/
theorem claim_roundtrip (v : Variant) (b : List Nat) (h : ∀ x ∈ b, x < 256) :
    variantDecode v (variantEncode v b) = some b := by
  cases v with
  | hexLower => exact hexDecode_encode .lower b h
  | hexUpper => exact hexDecode_encode .upper b h
  | base32 p => exact b32_roundtrip .Base32 p b h
  | base32hex p => exact b32_roundtrip .Base32Hex p b h
  | base64 p => exact b64_roundtrip STANDARD_CHARSET std_inv std_len std_ne61 p b h
  | base64url p => exact b64_roundtrip URL_SAFE_CHARSET url_inv url_len url_ne61 p b h

/-- Witness for claim C1 at the concrete input `b = "hello"` with the padded
standard base64 variant. -/
theorem claim_roundtrip_witness :
    (∀ x ∈ ([104, 101, 108, 108, 111] : List Nat), x < 256) ∧
      variantDecode (Variant.base64 true)
        (variantEncode (Variant.base64 true) [104, 101, 108, 108, 111]) =
        some [104, 101, 108, 108, 111] :=
  ⟨by decide, claim_roundtrip (Variant.base64 true) [104, 101, 108, 108, 111] (by decide)⟩

/-- Claim C2: the scalar and the vectorized path of the same operation agree on
every input: the vectorized hex encode (for every alignment split `p`) equals
the scalar hex encode on the whole input, and the vectorized base32 check
equals the scalar check on the whole input, with identical success/error
classification. -/
theorem claim_scalar_simd_equiv (c : AsciiCase) (p : Nat) (src : List Nat) (kind : Kind)
    (s : List Nat) (h : ∀ x ∈ src, x < 256) :
    encode_raw_simd p src c = encode_raw_fallback src c ∧
      check_simd kind s = check_fallback kind s :=
  ⟨encode_raw_simd_eq_fallback c p src h, check_simd_eq_fallback kind s.length s le_rfl⟩

/-- Witness for claim C2 at a concrete misaligned hex input and a concrete
base32 check input longer than one chunk. -/
theorem claim_scalar_simd_equiv_witness :
    (∀ x ∈ ([0, 17, 255, 34, 51, 68, 85, 102, 119, 136, 153, 170, 187, 204, 221,
        238, 250, 1, 2, 3] : List Nat), x < 256) ∧
      (encode_raw_simd 3
          [0, 17, 255, 34, 51, 68, 85, 102, 119, 136, 153, 170, 187, 204, 221,
            238, 250, 1, 2, 3] .lower =
        encode_raw_fallback
          [0, 17, 255, 34, 51, 68, 85, 102, 119, 136, 153, 170, 187, 204, 221,
            238, 250, 1, 2, 3] .lower ∧
        check_simd .Base32
            [77, 90, 88, 87, 54, 89, 84, 66, 77, 90, 88, 87, 54, 89, 84, 66, 77,
              90, 88, 87, 54, 89, 84, 66, 77, 90, 88, 87, 54, 89, 84, 66, 77, 90] =
          check_fallback .Base32
            [77, 90, 88, 87, 54, 89, 84, 66, 77, 90, 88, 87, 54, 89, 84, 66, 77,
              90, 88, 87, 54, 89, 84, 66, 77, 90, 88, 87, 54, 89, 84, 66, 77, 90]) :=
  ⟨by decide,
    claim_scalar_simd_equiv .lower 3
      [0, 17, 255, 34, 51, 68, 85, 102, 119, 136, 153, 170, 187, 204, 221, 238,
        250, 1, 2, 3] .Base32
      [77, 90, 88, 87, 54, 89, 84, 66, 77, 90, 88, 87, 54, 89, 84, 66, 77, 90,
        88, 87, 54, 89, 84, 66, 77, 90, 88, 87, 54, 89, 84, 66, 77, 90]
      (by decide)⟩

/-- Claim C3: for every variant and every input, `check` succeeds exactly when
`decode` succeeds. -/
theorem claim_check_iff_decode (v : Variant) (x : List Nat) :
    variantCheck v x = true ↔ (variantDecode v x).isSome = true := by
  cases v with
  | hexLower => exact hexCheck_iff_decode x
  | hexUpper => exact hexCheck_iff_decode x
  | base32 p => exact b32check_iff_decode .Base32 p x
  | base32hex p => exact b32check_iff_decode .Base32Hex p x
  | base64 p => exact b64check_iff_decode STANDARD_CHARSET p x
  | base64url p => exact b64check_iff_decode URL_SAFE_CHARSET p x

/-- Counterexample to claim C4 as stated: the vectorized hex encode does not
process 8-byte source chunks; the chunk constant used by `encode_raw_simd`
(`align_to::<Bytes16>` in the source) is 16 source bytes. -/
theorem claim_chunk_sizes_counterexample : ¬ (HEX_ENC_CHUNK = 8) := by decide

/-- Claim C4 (amended): the vectorized codec processes fixed-size chunks of 16
source bytes for hex (each producing a 32-byte output group) and 32 source
bytes for base32, and delegates any leftover tail shorter than one chunk to the
scalar codec. -/
theorem claim_chunk_sizes_amended (c : AsciiCase) (src : List Nat) (kind : Kind)
    (s : List Nat) (h16 : 16 ≤ src.length) (h32 : 32 ≤ s.length) :
    HEX_ENC_CHUNK = 16 ∧ B32_CHECK_CHUNK = 32 ∧
      simdMain c src = encode_u8x16 (src.take 16) c ++ simdMain c (src.drop 16) ∧
      (src.take 16).length = 16 ∧ (encode_u8x16 (src.take 16) c).length = 32 ∧
      simdMain c (src.take 15) = encode_raw_fallback (src.take 15) c ∧
      check_simd kind s = (check_ascii32 kind (s.take 32) && check_simd kind (s.drop 32)) ∧
      (s.take 32).length = 32 ∧
      check_simd kind (s.take 31) = check_fallback kind (s.take 31) := by
  have htake16 : (src.take 16).length = 16 := by
    rw [List.length_take]
    omega
  have htake32 : (s.take 32).length = 32 := by
    rw [List.length_take]
    omega
  refine ⟨rfl, rfl, ?_, htake16, ?_, ?_, ?_, htake32, ?_⟩
  · rw [simdMain, dif_pos (by simpa [HEX_ENC_CHUNK] using h16)]
    rfl
  · rw [encode_u8x16_length, htake16]
  · rw [simdMain, dif_neg (by simp only [HEX_ENC_CHUNK, List.length_take]; omega)]
  · rw [check_simd, dif_pos (by simpa [B32_CHECK_CHUNK] using h32)]
    rfl
  · rw [check_simd, dif_neg (by simp only [B32_CHECK_CHUNK, List.length_take]; omega)]

/-- Witness for the amended claim C4 at concrete inputs of exactly one hex
chunk and one base32 chunk. -/
theorem claim_chunk_sizes_amended_witness :
    16 ≤ (List.replicate 16 0).length ∧ 32 ≤ (List.replicate 32 77).length ∧
      (HEX_ENC_CHUNK = 16 ∧ B32_CHECK_CHUNK = 32 ∧
        simdMain .lower (List.replicate 16 0) =
          encode_u8x16 ((List.replicate 16 0).take 16) .lower ++
            simdMain .lower ((List.replicate 16 0).drop 16) ∧
        ((List.replicate 16 0).take 16).length = 16 ∧
        (encode_u8x16 ((List.replicate 16 0).take 16) .lower).length = 32 ∧
        simdMain .lower ((List.replicate 16 0).take 15) =
          encode_raw_fallback ((List.replicate 16 0).take 15) .lower ∧
        check_simd .Base32 (List.replicate 32 77) =
          (check_ascii32 .Base32 ((List.replicate 32 77).take 32) &&
            check_simd .Base32 ((List.replicate 32 77).drop 32)) ∧
        ((List.replicate 32 77).take 32).length = 32 ∧
        check_simd .Base32 ((List.replicate 32 77).take 31) =
          check_fallback .Base32 ((List.replicate 32 77).take 31)) :=
  ⟨by decide, by decide,
    claim_chunk_sizes_amended .lower (List.replicate 16 0) .Base32 (List.replicate 32 77)
      (by decide) (by decide)⟩

/-- Claim C5: `Base64::encoded_length(n)` panics exactly when
`n > usize::MAX / 2`; below that bound it returns `ceil(n / 3) * 4` for a
padded variant and the exact symbol count derived from `n % 3` for a
no-padding variant, and the computation stays within `usize`. -/
theorem claim_encoded_length (padding : Bool) (n : Nat) :
    (encoded_length padding n = none ↔ USIZE_MAX / 2 < n) ∧
      (n ≤ USIZE_MAX / 2 →
        encoded_length padding n =
          some (if padding then (n + 2) / 3 * 4
                else n / 3 * 4 + (if n % 3 = 0 then 0 else if n % 3 = 1 then 2 else 3)) ∧
          encoded_length_unchecked n padding ≤ USIZE_MAX) := by
  constructor
  · unfold encoded_length
    by_cases h : n ≤ USIZE_MAX / 2
    · rw [if_pos h]
      simp only [reduceCtorEq, false_iff]
      omega
    · rw [if_neg h]
      simp only [true_iff]
      omega
  · intro h
    unfold encoded_length encoded_length_unchecked
    rw [if_pos h]
    constructor
    · refine congrArg some ?_
      rcases h3 : n % 3 with _ | _ | _ | k <;> cases padding <;>
        simp only [h3, if_pos, if_neg, Bool.false_eq_true, if_false, if_true] <;>
        norm_num <;> omega
    · have hmax : USIZE_MAX = 18446744073709551615 := by norm_num [USIZE_MAX]
      rw [hmax] at h ⊢
      split_ifs <;> omega

/-- Witness for claim C5 at `n = 5`. -/
theorem claim_encoded_length_witness :
    ((encoded_length true 5 = none ↔ USIZE_MAX / 2 < 5) ∧
      (5 ≤ USIZE_MAX / 2 →
        encoded_length true 5 =
          some (if true then (5 + 2) / 3 * 4
                else 5 / 3 * 4 + (if 5 % 3 = 0 then 0 else if 5 % 3 = 1 then 2 else 3)) ∧
          encoded_length_unchecked 5 true ≤ USIZE_MAX)) ∧
      5 ≤ USIZE_MAX / 2 :=
  ⟨claim_encoded_length true 5, by decide⟩

/-- Claim C6: for every variant and every input on which decode succeeds, the
number of bytes decode writes equals the value computed by the decoded-length
calculation. -/
theorem claim_decoded_length_agreement (v : Variant) (s r : List Nat)
    (h : variantDecode v s = some r) :
    variantDecodedLength v s = some r.length := by
  cases v with
  | hexLower =>
    have hl := hexDecode_length s.length s r le_rfl h
    show hexDecodedLength s = some r.length
    unfold hexDecodedLength
    rw [if_pos hl.1]
    exact congrArg some (by omega)
  | hexUpper =>
    have hl := hexDecode_length s.length s r le_rfl h
    show hexDecodedLength s = some r.length
    unfold hexDecodedLength
    rw [if_pos hl.1]
    exact congrArg some (by omega)
  | base32 p => exact b32decode_length_eq .Base32 p s r h
  | base32hex p => exact b32decode_length_eq .Base32Hex p s r h
  | base64 p => exact b64decode_length_eq STANDARD_CHARSET p s r h
  | base64url p => exact b64decode_length_eq URL_SAFE_CHARSET p s r h

/-- Witness for claim C6: decoding the padded standard base64 encoding of
`"hello"` writes 5 bytes, matching the decoded-length computation. -/
theorem claim_decoded_length_agreement_witness :
    variantDecode (Variant.base64 true) [97, 71, 86, 115, 98, 71, 56, 61] =
        some [104, 101, 108, 108, 111] ∧
      variantDecodedLength (Variant.base64 true) [97, 71, 86, 115, 98, 71, 56, 61] =
        some 5 :=
  ⟨by decide,
    claim_decoded_length_agreement (Variant.base64 true) [97, 71, 86, 115, 98, 71, 56, 61]
      [104, 101, 108, 108, 111] (by decide)⟩

/-- Claim C7: `Base64::encode` panics exactly when the output buffer is smaller
than the encoded length of the input, and otherwise always succeeds, writing
exactly that many bytes; there is no error return for any input content. -/
theorem claim_encode_contract (v : Base64) (src : List Nat) (dstLen : Nat) (m : Nat)
    (hm : encoded_length v.padding src.length = some m) :
    (b64encodeChecked v.charset v.padding src dstLen = none ↔ dstLen < m) ∧
      (∀ out, b64encodeChecked v.charset v.padding src dstLen = some out →
        out.length = m) := by
  have hmu : m = encoded_length_unchecked src.length v.padding := by
    unfold encoded_length at hm
    split at hm
    · rw [Option.some.injEq] at hm
      omega
    · cases hm
  unfold b64encodeChecked
  constructor
  · by_cases hd : encoded_length_unchecked src.length v.padding ≤ dstLen
    · rw [if_pos hd]
      simp only [reduceCtorEq, false_iff]
      omega
    · rw [if_neg hd]
      simp only [true_iff]
      omega
  · intro out hout
    by_cases hd : encoded_length_unchecked src.length v.padding ≤ dstLen
    · rw [if_pos hd, Option.some.injEq] at hout
      subst hout
      rw [b64encode_length, hmu]
    · rw [if_neg hd] at hout
      cases hout

/-- Witness for claim C7: encoding `"hi"` with the padded standard variant into
a 4-byte buffer. -/
theorem claim_encode_contract_witness :
    encoded_length Base64.STANDARD.padding ([104, 105] : List Nat).length = some 4 ∧
      ((b64encodeChecked Base64.STANDARD.charset Base64.STANDARD.padding [104, 105] 4 = none ↔
          4 < 4) ∧
        (∀ out, b64encodeChecked Base64.STANDARD.charset Base64.STANDARD.padding
            [104, 105] 4 = some out → out.length = 4)) :=
  ⟨by decide, claim_encode_contract Base64.STANDARD [104, 105] 4 4 (by decide)⟩

/-- Claim C8: every entry of the precomputed 256-entry pair table equals the
pair of per-nibble table entries, and the scalar hex encode writes, for each
input byte, exactly its two-symbol representation, advancing the output by two
bytes per input byte. -/
theorem claim_hex_table (c : AsciiCase) (x : Nat) (src : List Nat) (i : Nat)
    (hx : x < 256) (hsrc : ∀ y ∈ src, y < 256) (hi : i < src.length) :
    (hexFullTable c).getD x (0, 0) =
        ((nibTable c).getD (x >>> 4) 0, (nibTable c).getD (x &&& 15) 0) ∧
      (encode_raw_fallback src c).length = 2 * src.length ∧
      (encode_raw_fallback src c).getD (2 * i) 0 =
        (nibTable c).getD (src.getD i 0 / 16) 0 ∧
      (encode_raw_fallback src c).getD (2 * i + 1) 0 =
        (nibTable c).getD (src.getD i 0 % 16) 0 := by
  have hg := erf_getD c src i hsrc hi
  exact ⟨by rw [hexFullTable_eq]; exact full_table_getD (nibTable c) x hx,
    erf_length c src, hg.1, hg.2⟩

/-- Witness for claim C8 at byte `0xAB` and the input `"hello"` at index 1. -/
theorem claim_hex_table_witness :
    (171 < 256 ∧ (∀ y ∈ ([104, 101, 108, 108, 111] : List Nat), y < 256) ∧
        1 < ([104, 101, 108, 108, 111] : List Nat).length) ∧
      ((hexFullTable .lower).getD 171 (0, 0) =
          ((nibTable .lower).getD (171 >>> 4) 0, (nibTable .lower).getD (171 &&& 15) 0) ∧
        (encode_raw_fallback [104, 101, 108, 108, 111] .lower).length =
          2 * ([104, 101, 108, 108, 111] : List Nat).length ∧
        (encode_raw_fallback [104, 101, 108, 108, 111] .lower).getD (2 * 1) 0 =
          (nibTable .lower).getD (([104, 101, 108, 108, 111] : List Nat).getD 1 0 / 16) 0 ∧
        (encode_raw_fallback [104, 101, 108, 108, 111] .lower).getD (2 * 1 + 1) 0 =
          (nibTable .lower).getD (([104, 101, 108, 108, 111] : List Nat).getD 1 0 % 16) 0) :=
  ⟨⟨by decide, by decide, by decide⟩,
    claim_hex_table .lower 171 [104, 101, 108, 108, 111] 1 (by decide) (by decide) (by decide)⟩

/-- Claim C9: forgiving base64 decode first normalizes the input and then
returns exactly the result of in-place decoding the normalized bytes with the
no-padding standard variant; in particular forgiving decode of `"aGVsbG8"`
succeeds and yields `"hello"`. -/
theorem claim_forgiving_decode :
    (∀ d : List Nat, forgiving_decode_inplace d =
        Base64.STANDARD_NO_PAD.decode_inplace (forgiving_normalize d)) ∧
      forgiving_decode_inplace [97, 71, 86, 115, 98, 71, 56] =
        some [104, 101, 108, 108, 111] :=
  ⟨fun _ => rfl, by decide⟩

/-- Claim C10: for every base64 variant the allocating entry points
short-circuit on empty input: `encode_to_boxed_str` of the empty sequence is
the empty string and `decode_to_boxed_bytes` of the empty sequence succeeds
with the empty byte sequence. -/
theorem claim_empty_boxed (v : Base64) :
    v.encode_to_boxed_str [] = [] ∧ v.decode_to_boxed_bytes [] = some [] :=
  ⟨rfl, rfl⟩
